import Mathlib

/-!
# keyscore-go: tolerant MachineInfo decoding and transport plumbing

A shallow embedding of `keyscore/models.go` (`MachineInfo.UnmarshalJSON`),
`keyscore/client.go` (`newRequest`, `doJSON`, `doRaw`) and
`keyscore/machine.go` (`Download`), together with the parts of Go's
`encoding/json`, `net/http` and `strconv` that these functions call.

Modelling decisions, all of them about the Go libraries the code calls:

* JSON text is represented by its parse tree (`Json`); a byte slice that is
  not one well-formed JSON text is `none`.  Object members are kept in
  document order, duplicates included, because `encoding/json` processes them
  in order.  The scanner of `encoding/json` rejects a text whose arrays and
  objects are nested deeper than 10000 (`checkValid`).
* A Go `string` is a byte sequence; it is represented the way a Go `range`
  loop sees it, as a list of valid runes and of bytes that are not part of a
  valid UTF-8 encoding (`GoString`).  Decoded JSON text is always valid.
* `encoding/json` matches an object key to a struct field by exact name and,
  failing that, case-insensitively, taking the first field in declaration
  order; a `null` leaves a string untouched; any other mismatch records an
  `UnmarshalTypeError` and decoding goes on; the first recorded error is
  returned.
-/

namespace Keyscore

/-! ## JSON values and Go strings -/

/-- A parsed JSON value.  Numbers keep their literal text; object members are
in document order and may repeat a name. -/
inductive Json where
  | null : Json
  | bool (b : Bool) : Json
  | num (lit : String) : Json
  | str (s : String) : Json
  | arr (elems : List Json) : Json
  | obj (members : List (String × Json)) : Json

/-- One step of a Go `range` loop over a string: a valid rune, or a byte that
is not part of a valid UTF-8 encoding. -/
inductive GoUnit where
  | rune (c : Char) : GoUnit
  | bad (b : Nat) : GoUnit
  deriving DecidableEq, Repr

deriving instance DecidableEq for Except

/-- A Go `string`: its bytes, cut the way a `range` loop cuts them, into the
runes that are validly encoded and the single bytes that are not.  Two
strings are equal when these lists are; the strings concatenated below meet
at an ASCII byte, where the cut of the whole is the cuts of the parts. -/
abbrev GoString := List GoUnit

/-- The Go string holding the UTF-8 encoding of a text. -/
def GoString.lit (s : String) : GoString := s.data.map GoUnit.rune

/-- Go `utf8.ValidString`. -/
def GoString.valid (g : GoString) : Bool :=
  g.all (fun u => match u with
    | GoUnit.rune _ => true
    | GoUnit.bad _ => false)

/-- The name `encoding/json` gives a JSON value in an `UnmarshalTypeError`. -/
def Json.kind : Json → String
  | Json.null => "null"
  | Json.bool _ => "bool"
  | Json.num _ => "number"
  | Json.str _ => "string"
  | Json.arr _ => "array"
  | Json.obj _ => "object"

mutual
/-- The nesting depth of a JSON value: how many arrays and objects are open
at its deepest point. -/
def Json.depth : Json → Nat
  | Json.arr es => depthElems es + 1
  | Json.obj ms => depthMembers ms + 1
  | _ => 0
/-- The greatest nesting depth among the elements of an array. -/
def depthElems : List Json → Nat
  | [] => 0
  | e :: es => max e.depth (depthElems es)
/-- The greatest nesting depth among the member values of an object. -/
def depthMembers : List (String × Json) → Nat
  | [] => 0
  | kv :: ms => max kv.2.depth (depthMembers ms)
end

/-- Go `maxNestingDepth` of the `encoding/json` scanner. -/
def maxNestingDepth : Nat := 10000

/-- Go `checkValid` of `encoding/json`: the bytes are one well-formed JSON
text, nested at most `maxNestingDepth` deep (deeper, the scanner fails with
the syntax error `exceeded max depth`). -/
def checkValid (data : Option Json) : Bool :=
  match data with
  | none => false
  | some j => decide (j.depth ≤ maxNestingDepth)

/-- Errors of `encoding/json` (and `io.EOF` of a `Decoder` on an empty
stream).  Byte offsets are not modelled. -/
inductive JsonError where
  | SyntaxError : JsonError
  | EOF : JsonError
  | UnmarshalTypeError (Value : String) (Field : String) : JsonError
  deriving DecidableEq, Repr

/-! ## encoding/json: matching keys to struct fields -/

/-- Unicode simple case folding as far as it can reach an ASCII letter: the
ASCII letters fold to upper case, U+017F (long s) folds with `S` and U+212A
(Kelvin sign) folds with `K`.  All struct tags of this package are ASCII, so
for matching a key against them this agrees with `foldName` of
`encoding/json`. -/
def foldRune (c : Char) : Char :=
  if 'a'.toNat ≤ c.toNat ∧ c.toNat ≤ 'z'.toNat then Char.ofNat (c.toNat - 32)
  else if c.toNat = 0x17F then 'S'
  else if c.toNat = 0x212A then 'K'
  else c

/-- The folded form of a name: two names match case-insensitively when their
folded forms are equal. -/
def foldName (s : String) : List Char := s.data.map foldRune

/-- The struct field a key is decoded into: the field with exactly that name,
else the first field, in declaration order, whose name matches
case-insensitively. -/
def findField {F : Type} (fields : List F) (name : F → String) (key : String) : Option F :=
  match fields.find? (fun f => decide (name f = key)) with
  | some f => some f
  | none => fields.find? (fun f => decide (foldName (name f) = foldName key))

/-- The state of a decode: the target value and the first error saved. -/
structure decodeState (σ : Type) where
  v : σ
  savedError : Option JsonError

/-- Go `decodeState.saveError`: only the first error is kept. -/
def decodeState.saveError {σ : Type} (d : decodeState σ) (e : Option JsonError) :
    decodeState σ :=
  match d.savedError with
  | none => { d with savedError := e }
  | some _ => d

/-- Go `decodeState.object` for a struct target: members are processed in
order; a member without a matching field is skipped. -/
def object {σ F : Type} (fields : List F) (name : F → String)
    (store : σ → F → Json → σ × Option JsonError)
    (d : decodeState σ) (members : List (String × Json)) : decodeState σ :=
  members.foldl (fun d kv =>
    match findField fields name kv.1 with
    | none => d
    | some f =>
      let r := store d.v f kv.2
      decodeState.saveError { d with v := r.1 } r.2) d

/-- Go `decodeState.value` for a struct target: an object is decoded member
by member, `null` leaves the struct untouched, anything else is a type
error. -/
def value {σ F : Type} (fields : List F) (name : F → String)
    (store : σ → F → Json → σ × Option JsonError)
    (d : decodeState σ) (j : Json) : decodeState σ :=
  match j with
  | Json.obj members => object fields name store d members
  | Json.null => d
  | j => d.saveError (some (JsonError.UnmarshalTypeError j.kind ""))

/-- Go `json.Unmarshal(data, &v)` for a struct `v`: the decoded struct and the
error returned.  The bytes are checked first (`checkValid`): bytes that are
not well-formed JSON (`none`) or are nested too deep give a syntax error and
leave `v` untouched. -/
def Unmarshal {σ F : Type} (fields : List F) (name : F → String)
    (store : σ → F → Json → σ × Option JsonError)
    (data : Option Json) (v : σ) : σ × Option JsonError :=
  match data with
  | none => (v, some JsonError.SyntaxError)
  | some j =>
    if j.depth ≤ maxNestingDepth then
      let d := value fields name store { v := v, savedError := none } j
      (d.v, d.savedError)
    else (v, some JsonError.SyntaxError)

/-- Decoding a JSON value into a Go `string`. -/
def storeString (cur : GoString) (field : String) (v : Json) : GoString × Option JsonError :=
  match v with
  | Json.str s => (GoString.lit s, none)
  | Json.null => (cur, none)
  | v => (cur, some (JsonError.UnmarshalTypeError v.kind field))

/-- A Go `[]string`: nil or not, its `len` elements, and what earlier
decoding left in the backing array beyond `len` (a zero tail is left out: a
fresh element is the empty string either way). -/
structure StringSlice where
  isNil : Bool
  elems : List GoString
  spare : List GoString
  deriving DecidableEq, Repr

/-- The nil slice. -/
def StringSlice.nil : StringSlice := { isNil := true, elems := [], spare := [] }

/-- Decoding the elements of a JSON array into slice elements: element `i` is
decoded into what the backing array holds at `i`. -/
def decodeElems (field : String) : List Json → List GoString → List GoString × Option JsonError
  | [], _ => ([], none)
  | e :: es, old =>
    let r := storeString (old.headD []) field e
    let rs := decodeElems field es old.tail
    (r.1 :: rs.1, match r.2 with
      | some err => some err
      | none => rs.2)

/-- Decoding a JSON value into a Go `[]string` (`decodeState.array` and
`literalStore`). -/
def storeSlice (cur : StringSlice) (field : String) (v : Json) : StringSlice × Option JsonError :=
  match v with
  | Json.arr [] => ({ isNil := false, elems := [], spare := [] }, none)
  | Json.arr es =>
    let old := cur.elems ++ cur.spare
    let r := decodeElems field es old
    ({ isNil := false, elems := r.1, spare := old.drop es.length }, r.2)
  | Json.null => (StringSlice.nil, none)
  | v => (cur, some (JsonError.UnmarshalTypeError v.kind field))

/-- The visible value of a slice: `none` for nil. -/
def StringSlice.toOption (s : StringSlice) : Option (List GoString) :=
  if s.isNil then none else some s.elems

/-! ## models.go: the wire struct of MachineInfo.UnmarshalJSON -/

/-- The fields of the `wire` struct declared inside `MachineInfo.UnmarshalJSON`,
in declaration order. -/
inductive WireField where
  | BuildID1 : WireField
  | BuildID2 : WireField
  | BuildID3 : WireField
  | IP1 : WireField
  | IP2 : WireField
  | IP3 : WireField
  | UserName1 : WireField
  | UserName2 : WireField
  | UserName3 : WireField
  | ComputerName1 : WireField
  | ComputerName2 : WireField
  | ComputerName3 : WireField
  | OperationSystem1 : WireField
  | OperationSystem2 : WireField
  | OperatingSystem1 : WireField
  | OperatingSystem2 : WireField
  | OSVersion : WireField
  | Processor1 : WireField
  | Processor2 : WireField
  | CPUName : WireField
  | InstalledRAM1 : WireField
  | InstalledRAM2 : WireField
  | RAMSize : WireField
  | GraphicsCard1 : WireField
  | GraphicsCard2 : WireField
  | GPUs : WireField
  | Country1 : WireField
  | Country2 : WireField
  | SystemLanguage1 : WireField
  | SystemLanguage2 : WireField
  | Language : WireField
  | TimeZone1 : WireField
  | TimeZone2 : WireField
  | TimeZone3 : WireField
  | DisplayResolution1 : WireField
  | DisplayResolution2 : WireField
  | ScreenResolution : WireField
  | FileType1 : WireField
  | FileType2 : WireField
  | FileTree : WireField
  deriving DecidableEq, Repr

/-- The `json` struct tag of a `wire` field. -/
def WireField.name : WireField → String
  | WireField.BuildID1 => "buildId"
  | WireField.BuildID2 => "BuildID"
  | WireField.BuildID3 => "buildid"
  | WireField.IP1 => "ip"
  | WireField.IP2 => "IP"
  | WireField.IP3 => "ipAddress"
  | WireField.UserName1 => "userName"
  | WireField.UserName2 => "UserName"
  | WireField.UserName3 => "username"
  | WireField.ComputerName1 => "computerName"
  | WireField.ComputerName2 => "ComputerName"
  | WireField.ComputerName3 => "computername"
  | WireField.OperationSystem1 => "operationSystem"
  | WireField.OperationSystem2 => "OperationSystem"
  | WireField.OperatingSystem1 => "operatingSystem"
  | WireField.OperatingSystem2 => "OperatingSystem"
  | WireField.OSVersion => "osVersion"
  | WireField.Processor1 => "processor"
  | WireField.Processor2 => "Processor"
  | WireField.CPUName => "cpuName"
  | WireField.InstalledRAM1 => "installedRAM"
  | WireField.InstalledRAM2 => "InstalledRAM"
  | WireField.RAMSize => "ramSize"
  | WireField.GraphicsCard1 => "graphicsCard"
  | WireField.GraphicsCard2 => "GraphicsCard"
  | WireField.GPUs => "gpus"
  | WireField.Country1 => "country"
  | WireField.Country2 => "Country"
  | WireField.SystemLanguage1 => "systemLanguage"
  | WireField.SystemLanguage2 => "SystemLanguage"
  | WireField.Language => "language"
  | WireField.TimeZone1 => "timeZone"
  | WireField.TimeZone2 => "TimeZone"
  | WireField.TimeZone3 => "timezone"
  | WireField.DisplayResolution1 => "displayResolution"
  | WireField.DisplayResolution2 => "DisplayResolution"
  | WireField.ScreenResolution => "screenResolution"
  | WireField.FileType1 => "fileType"
  | WireField.FileType2 => "FileType"
  | WireField.FileTree => "fileTree"

/-- The fields of `wire` in declaration order, the order in which
`encoding/json` looks for a case-insensitive match. -/
def wireFields : List WireField :=
  [WireField.BuildID1,
   WireField.BuildID2,
   WireField.BuildID3,
   WireField.IP1,
   WireField.IP2,
   WireField.IP3,
   WireField.UserName1,
   WireField.UserName2,
   WireField.UserName3,
   WireField.ComputerName1,
   WireField.ComputerName2,
   WireField.ComputerName3,
   WireField.OperationSystem1,
   WireField.OperationSystem2,
   WireField.OperatingSystem1,
   WireField.OperatingSystem2,
   WireField.OSVersion,
   WireField.Processor1,
   WireField.Processor2,
   WireField.CPUName,
   WireField.InstalledRAM1,
   WireField.InstalledRAM2,
   WireField.RAMSize,
   WireField.GraphicsCard1,
   WireField.GraphicsCard2,
   WireField.GPUs,
   WireField.Country1,
   WireField.Country2,
   WireField.SystemLanguage1,
   WireField.SystemLanguage2,
   WireField.Language,
   WireField.TimeZone1,
   WireField.TimeZone2,
   WireField.TimeZone3,
   WireField.DisplayResolution1,
   WireField.DisplayResolution2,
   WireField.ScreenResolution,
   WireField.FileType1,
   WireField.FileType2,
   WireField.FileTree]

/-- The `wire` struct: every known spelling of every attribute. -/
structure wire where
  BuildID1 : GoString := []
  BuildID2 : GoString := []
  BuildID3 : GoString := []
  IP1 : GoString := []
  IP2 : GoString := []
  IP3 : GoString := []
  UserName1 : GoString := []
  UserName2 : GoString := []
  UserName3 : GoString := []
  ComputerName1 : GoString := []
  ComputerName2 : GoString := []
  ComputerName3 : GoString := []
  OperationSystem1 : GoString := []
  OperationSystem2 : GoString := []
  OperatingSystem1 : GoString := []
  OperatingSystem2 : GoString := []
  OSVersion : GoString := []
  Processor1 : GoString := []
  Processor2 : GoString := []
  CPUName : GoString := []
  InstalledRAM1 : GoString := []
  InstalledRAM2 : GoString := []
  RAMSize : GoString := []
  GraphicsCard1 : GoString := []
  GraphicsCard2 : GoString := []
  GPUs : StringSlice := StringSlice.nil
  Country1 : GoString := []
  Country2 : GoString := []
  SystemLanguage1 : GoString := []
  SystemLanguage2 : GoString := []
  Language : GoString := []
  TimeZone1 : GoString := []
  TimeZone2 : GoString := []
  TimeZone3 : GoString := []
  DisplayResolution1 : GoString := []
  DisplayResolution2 : GoString := []
  ScreenResolution : GoString := []
  FileType1 : GoString := []
  FileType2 : GoString := []
  FileTree : StringSlice := StringSlice.nil
  deriving DecidableEq, Repr

/-- Reading a `string` field of `wire` (the two slice fields read as empty). -/
def wire.getString (w : wire) : WireField → GoString
  | WireField.BuildID1 => w.BuildID1
  | WireField.BuildID2 => w.BuildID2
  | WireField.BuildID3 => w.BuildID3
  | WireField.IP1 => w.IP1
  | WireField.IP2 => w.IP2
  | WireField.IP3 => w.IP3
  | WireField.UserName1 => w.UserName1
  | WireField.UserName2 => w.UserName2
  | WireField.UserName3 => w.UserName3
  | WireField.ComputerName1 => w.ComputerName1
  | WireField.ComputerName2 => w.ComputerName2
  | WireField.ComputerName3 => w.ComputerName3
  | WireField.OperationSystem1 => w.OperationSystem1
  | WireField.OperationSystem2 => w.OperationSystem2
  | WireField.OperatingSystem1 => w.OperatingSystem1
  | WireField.OperatingSystem2 => w.OperatingSystem2
  | WireField.OSVersion => w.OSVersion
  | WireField.Processor1 => w.Processor1
  | WireField.Processor2 => w.Processor2
  | WireField.CPUName => w.CPUName
  | WireField.InstalledRAM1 => w.InstalledRAM1
  | WireField.InstalledRAM2 => w.InstalledRAM2
  | WireField.RAMSize => w.RAMSize
  | WireField.GraphicsCard1 => w.GraphicsCard1
  | WireField.GraphicsCard2 => w.GraphicsCard2
  | WireField.GPUs => []
  | WireField.Country1 => w.Country1
  | WireField.Country2 => w.Country2
  | WireField.SystemLanguage1 => w.SystemLanguage1
  | WireField.SystemLanguage2 => w.SystemLanguage2
  | WireField.Language => w.Language
  | WireField.TimeZone1 => w.TimeZone1
  | WireField.TimeZone2 => w.TimeZone2
  | WireField.TimeZone3 => w.TimeZone3
  | WireField.DisplayResolution1 => w.DisplayResolution1
  | WireField.DisplayResolution2 => w.DisplayResolution2
  | WireField.ScreenResolution => w.ScreenResolution
  | WireField.FileType1 => w.FileType1
  | WireField.FileType2 => w.FileType2
  | WireField.FileTree => []

/-- Assigning a `string` field of `wire` (the two slice fields are left alone). -/
def wire.setString (w : wire) (f : WireField) (s : GoString) : wire :=
  match f with
  | WireField.BuildID1 => { w with BuildID1 := s }
  | WireField.BuildID2 => { w with BuildID2 := s }
  | WireField.BuildID3 => { w with BuildID3 := s }
  | WireField.IP1 => { w with IP1 := s }
  | WireField.IP2 => { w with IP2 := s }
  | WireField.IP3 => { w with IP3 := s }
  | WireField.UserName1 => { w with UserName1 := s }
  | WireField.UserName2 => { w with UserName2 := s }
  | WireField.UserName3 => { w with UserName3 := s }
  | WireField.ComputerName1 => { w with ComputerName1 := s }
  | WireField.ComputerName2 => { w with ComputerName2 := s }
  | WireField.ComputerName3 => { w with ComputerName3 := s }
  | WireField.OperationSystem1 => { w with OperationSystem1 := s }
  | WireField.OperationSystem2 => { w with OperationSystem2 := s }
  | WireField.OperatingSystem1 => { w with OperatingSystem1 := s }
  | WireField.OperatingSystem2 => { w with OperatingSystem2 := s }
  | WireField.OSVersion => { w with OSVersion := s }
  | WireField.Processor1 => { w with Processor1 := s }
  | WireField.Processor2 => { w with Processor2 := s }
  | WireField.CPUName => { w with CPUName := s }
  | WireField.InstalledRAM1 => { w with InstalledRAM1 := s }
  | WireField.InstalledRAM2 => { w with InstalledRAM2 := s }
  | WireField.RAMSize => { w with RAMSize := s }
  | WireField.GraphicsCard1 => { w with GraphicsCard1 := s }
  | WireField.GraphicsCard2 => { w with GraphicsCard2 := s }
  | WireField.GPUs => w
  | WireField.Country1 => { w with Country1 := s }
  | WireField.Country2 => { w with Country2 := s }
  | WireField.SystemLanguage1 => { w with SystemLanguage1 := s }
  | WireField.SystemLanguage2 => { w with SystemLanguage2 := s }
  | WireField.Language => { w with Language := s }
  | WireField.TimeZone1 => { w with TimeZone1 := s }
  | WireField.TimeZone2 => { w with TimeZone2 := s }
  | WireField.TimeZone3 => { w with TimeZone3 := s }
  | WireField.DisplayResolution1 => { w with DisplayResolution1 := s }
  | WireField.DisplayResolution2 => { w with DisplayResolution2 := s }
  | WireField.ScreenResolution => { w with ScreenResolution := s }
  | WireField.FileType1 => { w with FileType1 := s }
  | WireField.FileType2 => { w with FileType2 := s }
  | WireField.FileTree => w

/-- Decoding one member value into the `wire` field it matched: `GPUs` and
`FileTree` are `[]string`, every other field is a `string`. -/
def wire.store (w : wire) (f : WireField) (v : Json) : wire × Option JsonError :=
  match f with
  | WireField.GPUs =>
    let r := storeSlice w.GPUs f.name v
    ({ w with GPUs := r.1 }, r.2)
  | WireField.FileTree =>
    let r := storeSlice w.FileTree f.name v
    ({ w with FileTree := r.1 }, r.2)
  | f =>
    let r := storeString (w.getString f) f.name v
    (w.setString f r.1, r.2)

/-- The `wrapper` struct of `MachineInfo.UnmarshalJSON`.  `Data` is a
`json.RawMessage`: the bytes of one JSON value, here its parse tree; the text
of a JSON value is never empty, so `len(w.Data) > 0` holds exactly when the
field was set. -/
structure wrapper where
  Data : Option Json := none

/-- The one field of `wrapper`. -/
inductive WrapperField where
  | Data : WrapperField
  deriving DecidableEq, Repr

/-- The `json` struct tag of the `wrapper` field. -/
def WrapperField.name : WrapperField → String
  | WrapperField.Data => "data"

/-- Decoding a member value into `wrapper.Data`: `RawMessage.UnmarshalJSON`
copies the bytes of any value, `null` included. -/
def wrapper.store (_w : wrapper) (f : WrapperField) (v : Json) : wrapper × Option JsonError :=
  match f with
  | WrapperField.Data => ({ Data := some v }, none)

/-- The `MachineInfo` entity.  `FileTree` is `none` for a nil slice. -/
structure MachineInfo where
  BuildID : GoString
  IP : GoString
  UserName : GoString
  ComputerName : GoString
  OperationSystem : GoString
  Processor : GoString
  InstalledRAM : GoString
  GraphicsCard : GoString
  Country : GoString
  SystemLanguage : GoString
  TimeZone : GoString
  DisplayResolution : GoString
  FileType : GoString
  FileTree : Option (List GoString)
  deriving DecidableEq, Repr

/-- How `MachineInfo.UnmarshalJSON` can fail: with the error of
`json.Unmarshal`, or with a run-time panic of an index expression. -/
inductive Failure where
  | error (e : JsonError) : Failure
  | indexOutOfRange : Failure
  deriving DecidableEq, Repr

/-- The closure `pick` of `MachineInfo.UnmarshalJSON`: the first non-empty
argument, else the empty string. -/
def pick : List GoString → GoString
  | [] => []
  | v :: vals => if v ≠ [] then v else pick vals

/-- An index expression `s[i]` on a slice: out of range it panics. -/
def index (s : StringSlice) (i : Nat) : Except Failure GoString :=
  match s.elems.get? i with
  | some x => Except.ok x
  | none => Except.error Failure.indexOutOfRange

/-- The graphics card of `MachineInfo.UnmarshalJSON`: the direct spellings,
else the first GPU. -/
def graphicsCard (wireData : wire) : Except Failure GoString :=
  let g := pick [wireData.GraphicsCard1, wireData.GraphicsCard2]
  if g = [] ∧ wireData.GPUs.elems.length > 0 then index wireData.GPUs 0
  else Except.ok g

/-- The assignments of `MachineInfo.UnmarshalJSON` after a successful decode
of the wire struct. -/
def fromWire (wireData : wire) : Except Failure MachineInfo :=
  match graphicsCard wireData with
  | Except.error e => Except.error e
  | Except.ok g => Except.ok
    { BuildID := pick [wireData.BuildID1, wireData.BuildID2, wireData.BuildID3]
      IP := pick [wireData.IP1, wireData.IP2, wireData.IP3]
      UserName := pick [wireData.UserName1, wireData.UserName2, wireData.UserName3]
      ComputerName := pick [wireData.ComputerName1, wireData.ComputerName2, wireData.ComputerName3]
      OperationSystem := pick [wireData.OperationSystem1, wireData.OperationSystem2,
        wireData.OperatingSystem1, wireData.OperatingSystem2, wireData.OSVersion]
      Processor := pick [wireData.Processor1, wireData.Processor2, wireData.CPUName]
      InstalledRAM := pick [wireData.InstalledRAM1, wireData.InstalledRAM2, wireData.RAMSize]
      GraphicsCard := g
      Country := pick [wireData.Country1, wireData.Country2]
      SystemLanguage := pick [wireData.SystemLanguage1, wireData.SystemLanguage2, wireData.Language]
      TimeZone := pick [wireData.TimeZone1, wireData.TimeZone2, wireData.TimeZone3]
      DisplayResolution := pick [wireData.DisplayResolution1, wireData.DisplayResolution2,
        wireData.ScreenResolution]
      FileType := pick [wireData.FileType1, wireData.FileType2]
      FileTree := wireData.FileTree.toOption }

/-- The first step of `MachineInfo.UnmarshalJSON`: when the payload decodes
into `wrapper` without error and `Data` was set, go on with `Data`. -/
def unwrap (data : Option Json) : Option Json :=
  let r := Unmarshal [WrapperField.Data] WrapperField.name wrapper.store data {}
  if r.2 = none ∧ r.1.Data.isSome then r.1.Data else data

/-- The rest of `MachineInfo.UnmarshalJSON`: decode the (possibly unwrapped)
payload into `wire`, return the error if there is one, else assign the
entity. -/
def decodeWire (data : Option Json) : Except Failure MachineInfo :=
  let r := Unmarshal wireFields WireField.name wire.store data {}
  match r.2 with
  | some err => Except.error (Failure.error err)
  | none => fromWire r.1

/-- Go `MachineInfo.UnmarshalJSON`.  The receiver is assigned only on
success, and then every field of it, so the result is the entity. -/
def MachineInfo.UnmarshalJSON (data : Option Json) : Except Failure MachineInfo :=
  decodeWire (unwrap data)

/-! ## models.go: the default encoding of MachineInfo -/

/-- Go `json.Marshal` of a `string`: the text, with every byte that is not
part of a valid UTF-8 encoding replaced by U+FFFD. -/
def marshalString (g : GoString) : Json :=
  Json.str (String.mk (g.map (fun u => match u with
    | GoUnit.rune c => c
    | GoUnit.bad _ => Char.ofNat 0xFFFD)))

/-- Go `json.Marshal` of a `[]string`: `null` for a nil slice. -/
def marshalSlice (s : Option (List GoString)) : Json :=
  match s with
  | none => Json.null
  | some l => Json.arr (l.map marshalString)

/-- Go `json.Marshal` of a `MachineInfo`: the object of its fields under
their struct tags, in declaration order (the type has no `MarshalJSON`). -/
def MachineInfo.Marshal (m : MachineInfo) : Json :=
  Json.obj
    [("buildId", marshalString m.BuildID),
     ("ip", marshalString m.IP),
     ("userName", marshalString m.UserName),
     ("computerName", marshalString m.ComputerName),
     ("operationSystem", marshalString m.OperationSystem),
     ("processor", marshalString m.Processor),
     ("installedRAM", marshalString m.InstalledRAM),
     ("graphicsCard", marshalString m.GraphicsCard),
     ("country", marshalString m.Country),
     ("systemLanguage", marshalString m.SystemLanguage),
     ("timeZone", marshalString m.TimeZone),
     ("displayResolution", marshalString m.DisplayResolution),
     ("fileType", marshalString m.FileType),
     ("fileTree", marshalSlice m.FileTree)]

/-! ## client.go: requests, responses and errors -/

/-- Go `http.Header` and `url.Values`: a map from a (canonical) key to its
values, as an association list with one entry for each key. -/
abbrev Header := List (String × List GoString)

/-- Go `Header.Get` for a key in canonical form: the first value, or the
empty string. -/
def Header.Get (h : Header) (key : String) : GoString :=
  match h.lookup key with
  | some (v :: _) => v
  | _ => []

/-- Go `Header.Set` for a key in canonical form: the key gets the single
value. -/
def Header.Set (h : Header) (key : String) (value : GoString) : Header :=
  (key, [value]) :: h.filter (fun kv => decide (kv.1 ≠ key))

/-- A response body as `json.Decoder` reads it: nothing at all (or only white
space), bytes that do not start with a complete JSON value, or a first JSON
value; `trailing` tells whether bytes other than white space follow that
value, which `Decode` does not read. -/
inductive Body where
  | empty : Body
  | malformed : Body
  | value (v : Json) (trailing : Bool) : Body

/-- Go `http.Response`, as far as the client reads it. -/
structure Response where
  StatusCode : Int
  Header : Header
  Body : Body

/-- Go `http.Request`, as far as the client builds it. -/
structure Request (υ : Type) where
  Method : GoString
  URL : υ
  Header : Header
  Body : Option (List Nat)

/-- Go `APIError`. -/
structure APIError where
  StatusCode : Int
  Message : GoString
  deriving DecidableEq, Repr

/-- The errors the client returns. -/
inductive Error where
  | marshalRequestBody : Error
  | newRequest : Error
  | transport : Error
  | api (e : APIError) : Error
  | decodeResponse (e : Failure) : Error
  deriving DecidableEq, Repr

/-- The library calls of `newRequest` whose results the client passes on:
`json.Marshal` of a request body (`none` when it fails), `url.Values.Encode`,
and the checks of `http.NewRequestWithContext` on context, method and URL
(`none` when it fails, else the parsed URL). -/
structure Library (β υ : Type) where
  Marshal : β → Option (List Nat)
  Encode : Header → GoString
  NewRequestWithContext : GoString → GoString → Option υ

/-- Go `Client`.  The HTTP client is what it answers to a request: `none` is
an error of `httpClient.Do`. -/
structure Client (υ : Type) where
  baseURL : GoString
  apiKey : GoString
  httpClient : Request υ → Option Response

/-- Go `Client.newRequest`.  `http.NewRequestWithContext` returns a request
with an empty header and the method `GET` for an empty method. -/
def Client.newRequest {β υ : Type} (lib : Library β υ) (c : Client υ)
    (method path : GoString) (q : Header) (body : Option β) : Except Error (Request υ) :=
  let u := c.baseURL ++ path
  let u := if q.length > 0 then u ++ GoString.lit "?" ++ lib.Encode q else u
  let marshalled : Except Error (Option (List Nat)) :=
    match body with
    | none => Except.ok none
    | some b =>
      match lib.Marshal b with
      | none => Except.error Error.marshalRequestBody
      | some bytes => Except.ok (some bytes)
  match marshalled with
  | Except.error e => Except.error e
  | Except.ok r =>
    match lib.NewRequestWithContext method u with
    | none => Except.error Error.newRequest
    | some url =>
      let req : Request υ :=
        { Method := if method = [] then GoString.lit "GET" else method
          URL := url
          Header := []
          Body := r }
      let req := if body.isSome then
        { req with Header := req.Header.Set "Content-Type" (GoString.lit "application/json") }
        else req
      let req := if c.apiKey ≠ [] then
        { req with Header := req.Header.Set "Authorization" (GoString.lit "Bearer " ++ c.apiKey) }
        else req
      Except.ok req

/-- The anonymous struct `er` of `doJSON` and `doRaw`. -/
structure er where
  Error : GoString := []
  deriving DecidableEq, Repr

/-- The one field of `er`. -/
inductive ErField where
  | Error : ErField
  deriving DecidableEq, Repr

/-- The `json` struct tag of the `er` field. -/
def ErField.name : ErField → String
  | ErField.Error => "error"

/-- Decoding a member value into `er.Error`. -/
def er.store (e : er) (f : ErField) (v : Json) : er × Option JsonError :=
  match f with
  | ErField.Error =>
    let r := storeString e.Error f.name v
    ({ Error := r.1 }, r.2)

/-- Go `json.NewDecoder(body).Decode(&v)` for a struct `v`: `io.EOF` on an
empty body, a syntax error when no complete JSON value can be read (or the
value is nested too deep), else the first value is unmarshalled and what
follows it is left unread. -/
def Decode {σ F : Type} (fields : List F) (name : F → String)
    (store : σ → F → Json → σ × Option JsonError)
    (body : Body) (v : σ) : σ × Option JsonError :=
  match body with
  | Body.empty => (v, some JsonError.EOF)
  | Body.malformed => (v, some JsonError.SyntaxError)
  | Body.value j _ => Unmarshal fields name store (some j) v

/-- The error branch of `doJSON` and `doRaw`: the error of `Decode` is
dropped and `er.Error` is the message. -/
def apiError (resp : Response) : APIError :=
  let r := Decode [ErField.Error] ErField.name er.store resp.Body ({} : er)
  { StatusCode := resp.StatusCode, Message := r.1.Error }

/-- Go `Decoder.Decode(v)` for a target with its own `UnmarshalJSON`: the
decoder reads the first value, failing as `Decode` does, and the method gets
the bytes of that value. -/
def decodeInto {α : Type} (unmarshal : Option Json → Except Failure α) (body : Body) :
    Except Failure α :=
  match body with
  | Body.empty => Except.error (Failure.error JsonError.EOF)
  | Body.malformed => Except.error (Failure.error JsonError.SyntaxError)
  | Body.value j _ =>
    if j.depth ≤ maxNestingDepth then unmarshal (some j)
    else Except.error (Failure.error JsonError.SyntaxError)

/-- Go `Client.doJSON`.  The target `v` is given by how it is unmarshalled;
`none` is a nil target. -/
def Client.doJSON {α υ : Type} (c : Client υ) (req : Request υ)
    (v : Option (Option Json → Except Failure α)) : Except Error (Option α) :=
  match c.httpClient req with
  | none => Except.error Error.transport
  | some resp =>
    if resp.StatusCode < 200 ∨ resp.StatusCode ≥ 300 then
      Except.error (Error.api (apiError resp))
    else
      match v with
      | none => Except.ok none
      | some unmarshal =>
        match decodeInto unmarshal resp.Body with
        | Except.error e => Except.error (Error.decodeResponse e)
        | Except.ok a => Except.ok (some a)

/-! ## strconv.ParseInt -/

/-- The errors of `strconv`. -/
inductive NumError where
  | ErrSyntax : NumError
  | ErrRange : NumError
  deriving DecidableEq, Repr

/-- The value of a byte as a decimal digit; every other byte is a syntax
error in base 10. -/
def digitValue (u : GoUnit) : Option Nat :=
  match u with
  | GoUnit.rune c =>
    if '0'.toNat ≤ c.toNat ∧ c.toNat ≤ '9'.toNat then some (c.toNat - '0'.toNat) else none
  | GoUnit.bad _ => none

/-- The loop of Go `strconv.ParseUint(s, 10, 64)` over the bytes of `s`, with
the 64-bit accumulator `n`. -/
def parseUintLoop : List GoUnit → Nat → Except NumError Nat
  | [], n => Except.ok n
  | u :: rest, n =>
    match digitValue u with
    | none => Except.error NumError.ErrSyntax
    | some d =>
      if n ≥ (2 ^ 64 - 1) / 10 + 1 then Except.error NumError.ErrRange
      else
        let n10 := (n * 10) % 2 ^ 64
        let n1 := (n10 + d) % 2 ^ 64
        if n1 < n10 ∨ n1 > 2 ^ 64 - 1 then Except.error NumError.ErrRange
        else parseUintLoop rest n1

/-- Go `strconv.ParseUint(s, 10, 64)`. -/
def ParseUint (s : GoString) : Except NumError Nat :=
  if s = [] then Except.error NumError.ErrSyntax else parseUintLoop s 0

/-- Go conversion `int64(x)`: wrap around into the 64-bit signed range. -/
def int64 (x : Int) : Int := (x + 2 ^ 63) % 2 ^ 64 - 2 ^ 63

/-- The second half of Go `strconv.ParseInt(s, 10, 64)`: with the sign picked
off and the rest parsed by `ParseUint`, a syntax error is returned as it is;
otherwise (after a range error the value is the largest `uint64`) the value
is checked against the signed range, converted and negated. -/
def parseIntRange (neg : Bool) (res : Except NumError Nat) : Except NumError Int :=
  match res with
  | Except.error NumError.ErrSyntax => Except.error NumError.ErrSyntax
  | res =>
    let un : Nat :=
      match res with
      | Except.ok un => un
      | Except.error _ => 2 ^ 64 - 1
    if neg = false ∧ un ≥ 2 ^ 63 then Except.error NumError.ErrRange
    else if neg = true ∧ un > 2 ^ 63 then Except.error NumError.ErrRange
    else
      let n := int64 (un : Int)
      Except.ok (if neg = true then int64 (-n) else n)

/-- Go `strconv.ParseInt(s, 10, 64)`: a leading sign is picked off, the rest
is parsed as unsigned and checked against the signed range. -/
def ParseInt (s : GoString) : Except NumError Int :=
  if s = [] then Except.error NumError.ErrSyntax
  else
    let r : Bool × GoString :=
      if s.head? = some (GoUnit.rune '+') then (false, s.tail)
      else if s.head? = some (GoUnit.rune '-') then (true, s.tail)
      else (false, s)
    parseIntRange r.1 (ParseUint r.2)

/-- Go `Client.doRaw`: the body, content type, content length and content
disposition. -/
def Client.doRaw {υ : Type} (c : Client υ) (req : Request υ) :
    Except Error (Body × GoString × Int × GoString) :=
  match c.httpClient req with
  | none => Except.error Error.transport
  | some resp =>
    if resp.StatusCode < 200 ∨ resp.StatusCode ≥ 300 then
      Except.error (Error.api (apiError resp))
    else
      let ct := resp.Header.Get "Content-Type"
      let v := resp.Header.Get "Content-Length"
      let cl : Int :=
        if v ≠ [] then
          match ParseInt v with
          | Except.ok n => n
          | Except.error _ => 0
        else 0
      let cd := resp.Header.Get "Content-Disposition"
      Except.ok (resp.Body, ct, cl, cd)

/-! ## machine.go -/

/-- Go `DownloadResult`. -/
structure DownloadResult where
  Body : Body
  ContentType : GoString
  ContentLength : Int
  ContentDisposition : GoString

/-- Go `Client.Download`. -/
def Client.Download {β υ : Type} (lib : Library β υ) (c : Client υ)
    (uuid filePath : GoString) : Except Error DownloadResult :=
  let q : Header := [("uuid", [uuid])]
  let q := if filePath ≠ [] then q.Set "file" filePath else q
  match c.newRequest lib (GoString.lit "GET") (GoString.lit "/download") q none with
  | Except.error e => Except.error e
  | Except.ok req =>
    match c.doRaw req with
    | Except.error e => Except.error e
    | Except.ok r =>
      Except.ok { Body := r.1, ContentType := r.2.1, ContentLength := r.2.2.1,
                  ContentDisposition := r.2.2.2 }

/-! ## Definitions used to state the properties -/

/-- The `wire` field a payload member with this key is decoded into, if any. -/
def assigned (key : String) : Option WireField :=
  findField wireFields WireField.name key

/-- The members of the payload that is decoded into `wire`: those of an
object; `null` has none. -/
def Json.members : Option Json → List (String × Json)
  | some (Json.obj ms) => ms
  | _ => []

/-- Whether a JSON value is a string. -/
def Json.isStr : Json → Bool
  | Json.str _ => true
  | _ => false

/-- Whether a JSON value is a string or `null`. -/
def Json.isStrOrNull : Json → Bool
  | Json.str _ => true
  | Json.null => true
  | _ => false

/-- The value a payload gives to one name variant: the string of the last
string-valued member that is decoded into the variant's field, and the empty
string when there is none. -/
def variantValue (P : List (String × Json)) (f : WireField) : GoString :=
  match (P.filter (fun kv => decide (assigned kv.1 = some f) && kv.2.isStr)).getLast? with
  | some (_, Json.str s) => GoString.lit s
  | _ => []

/-- The first non-empty string of a list, the empty string when there is
none. -/
def firstNonEmpty (vals : List GoString) : GoString :=
  (vals.find? (fun v => decide (v ≠ []))).getD []

/-- The slice a payload gives to a `[]string` field: its members that are
decoded into the field, decoded one after the other. -/
def sliceValue (P : List (String × Json)) (f : WireField) : StringSlice :=
  P.foldl (fun s kv =>
    if assigned kv.1 = some f then (storeSlice s f.name kv.2).1 else s) StringSlice.nil

/-- Whether a `wire` field is a `[]string`. -/
def WireField.isSlice : WireField → Bool
  | WireField.GPUs => true
  | WireField.FileTree => true
  | _ => false

/-- Whether a member value can be decoded into a `wire` field without a type
error: a string or `null` for a `string` field; `null` or an array of strings
and `null`s for `GPUs` and `FileTree`. -/
def compatible (f : WireField) (v : Json) : Bool :=
  match f with
  | WireField.GPUs | WireField.FileTree =>
    (match v with
      | Json.null => true
      | Json.arr es => es.all Json.isStrOrNull
      | _ => false)
  | _ => v.isStrOrNull

/-- Whether the payload that is decoded into `wire` decodes without a type
error: it is `null`, or an object every member of which is compatible with
the field it is decoded into. -/
def wellTyped (data : Option Json) : Bool :=
  match data with
  | some Json.null => true
  | some (Json.obj ms) => ms.all (fun kv =>
    match assigned kv.1 with
    | none => true
    | some f => compatible f kv.2)
  | _ => false

/-- The members of the payload that `MachineInfo.UnmarshalJSON` decodes into
`wire`: those of the payload itself, or of the value of its `data` member
when it is unwrapped. -/
def payloadMembers (data : Option Json) : List (String × Json) :=
  Json.members (unwrap data)

/-- The `wire` struct after `json.Unmarshal(data, &wireData)`. -/
def decodedWire (data : Option Json) : wire :=
  (Unmarshal wireFields WireField.name wire.store data {}).1

/-- No member of the payload is decoded into one of the fields `fs`. -/
def unassigned (P : List (String × Json)) (fs : List WireField) : Prop :=
  ∀ kv ∈ P, ∀ f ∈ fs, assigned kv.1 ≠ some f

/-- The entity with thirteen empty strings and a nil file tree. -/
def MachineInfo.zero : MachineInfo :=
  { BuildID := [], IP := [], UserName := [], ComputerName := [], OperationSystem := [],
    Processor := [], InstalledRAM := [], GraphicsCard := [], Country := [],
    SystemLanguage := [], TimeZone := [], DisplayResolution := [], FileType := [],
    FileTree := none }

/-- Every string of the entity is valid UTF-8. -/
def MachineInfo.valid (m : MachineInfo) : Bool :=
  m.BuildID.valid && m.IP.valid && m.UserName.valid && m.ComputerName.valid &&
  m.OperationSystem.valid && m.Processor.valid && m.InstalledRAM.valid &&
  m.GraphicsCard.valid && m.Country.valid && m.SystemLanguage.valid && m.TimeZone.valid &&
  m.DisplayResolution.valid && m.FileType.valid &&
  (match m.FileTree with
    | none => true
    | some l => l.all GoString.valid)

/-- The whole body is one JSON text that `encoding/json` accepts: a JSON
value, nested at most `maxNestingDepth` deep, followed by nothing but white
space. -/
def Body.isJSON (body : Body) : Bool :=
  match body with
  | Body.value v false => checkValid (some v)
  | _ => false

/-- The JSON value of `n` arrays nested in one another around `null`. -/
def nested : Nat → Json
  | 0 => Json.null
  | n + 1 => Json.arr [nested n]

/-- An example response: 404 with an error body. -/
def notFound : Response :=
  { StatusCode := 404, Header := [],
    Body := Body.value (Json.obj [("error", Json.str "not found")]) false }

/-- An example response: 502 with an error object followed by other bytes. -/
def badGateway : Response :=
  { StatusCode := 502, Header := [],
    Body := Body.value (Json.obj [("error", Json.str "boom")]) true }

/-- An example response: a download of 1024 bytes. -/
def archive : Response :=
  { StatusCode := 200,
    Header := [("Content-Type", [GoString.lit "application/zip"]),
               ("Content-Length", [GoString.lit "1024"])],
    Body := Body.malformed }

/-- An example client: no API key, and an HTTP client that answers every
request with the given response. -/
def answering (resp : Response) : Client GoString :=
  { baseURL := GoString.lit "https://api.keysco.re", apiKey := [],
    httpClient := fun _ => some resp }

/-- An example request. -/
def getRequest : Request GoString :=
  { Method := GoString.lit "GET", URL := GoString.lit "https://api.keysco.re/health",
    Header := [], Body := none }

/-- An example of the library calls: bodies marshal to no bytes, query
parameters encode to the empty string, every method and URL is accepted and
the URL is kept as its text. -/
def plainLibrary : Library Unit GoString :=
  { Marshal := fun _ => some [], Encode := fun _ => [],
    NewRequestWithContext := fun _ u => some u }

/-- The character of a decimal digit. -/
def digitChar (d : Nat) : GoUnit := GoUnit.rune (Char.ofNat ('0'.toNat + d))

/-- The number a list of decimal digits denotes, most significant first. -/
def digitsValue (ds : List Nat) : Nat := ds.foldl (fun a d => a * 10 + d) 0

/-- A text is a base-10 numeral of the 64-bit signed integer `n`: an optional
sign, then one or more decimal digits, denoting `n`. -/
def isInt64Text (s : GoString) (n : Int) : Prop :=
  -2 ^ 63 ≤ n ∧ n < 2 ^ 63 ∧
  ∃ ds : List Nat, ds ≠ [] ∧ (∀ d ∈ ds, d < 10) ∧
    ((s = ds.map digitChar ∧ n = (digitsValue ds : Int)) ∨
     (s = GoUnit.rune '+' :: ds.map digitChar ∧ n = (digitsValue ds : Int)) ∨
     (s = GoUnit.rune '-' :: ds.map digitChar ∧ n = -(digitsValue ds : Int)))

/-- The decimal digits of a natural number, most significant first, without
leading zeros (`fuel` bounds the number of digits). -/
def decimalDigits : Nat → Nat → List Nat
  | 0, m => [m % 10]
  | fuel + 1, m => if m < 10 then [m] else decimalDigits fuel (m / 10) ++ [m % 10]

/-- The base-10 text of an integer: a minus sign for a negative one, then the
digits without leading zeros. -/
def decimal (n : Int) : GoString :=
  if n < 0 then GoUnit.rune '-' :: (decimalDigits n.natAbs n.natAbs).map digitChar
  else (decimalDigits n.natAbs n.natAbs).map digitChar

/-! # Theorems -/

/-! ## Lemmas on decoding objects -/

section ObjectLemmas

variable {σ F : Type} (fields : List F) (name : F → String)
  (store : σ → F → Json → σ × Option JsonError)

theorem object_append (d : decodeState σ) (l₁ l₂ : List (String × Json)) :
    object fields name store d (l₁ ++ l₂)
      = object fields name store (object fields name store d l₁) l₂ := by
  simp [object, List.foldl_append]

theorem object_cons_skip (d : decodeState σ) (k : String) (v : Json)
    (l : List (String × Json)) (h : findField fields name k = none) :
    object fields name store d ((k, v) :: l) = object fields name store d l := by
  simp [object, List.foldl_cons, h]

theorem findField_eq_none {key : String}
    (h : ∀ f ∈ fields, foldName (name f) ≠ foldName key) :
    findField fields name key = none := by
  have h₁ : fields.find? (fun f => decide (name f = key)) = none := by
    rw [List.find?_eq_none]
    intro f hf
    have := h f hf
    simp only [decide_eq_true_eq]
    intro heq
    exact this (by rw [heq])
  have h₂ : fields.find? (fun f => decide (foldName (name f) = foldName key)) = none := by
    rw [List.find?_eq_none]
    intro f hf
    simpa using h f hf
  simp [findField, h₁, h₂]

theorem object_skip_all (d : decodeState σ) (l : List (String × Json))
    (h : ∀ kv ∈ l, findField fields name kv.1 = none) :
    object fields name store d l = d := by
  induction l with
  | nil => rfl
  | cons kv l ih =>
    obtain ⟨k, v⟩ := kv
    rw [object_cons_skip fields name store d k v l (h (k, v) (List.mem_cons_self _ _))]
    exact ih (fun kv hkv => h kv (List.mem_cons_of_mem _ hkv))

theorem object_insert_skip (d : decodeState σ) (k : String) (v : Json)
    (l₁ l₂ : List (String × Json)) (h : findField fields name k = none) :
    object fields name store d (l₁ ++ (k, v) :: l₂)
      = object fields name store d (l₁ ++ l₂) := by
  rw [object_append, object_append, object_cons_skip fields name store _ k v l₂ h]

end ObjectLemmas

/-! ## Lemmas on the nesting depth and on checked decoding -/

theorem depth_obj (ms : List (String × Json)) : (Json.obj ms).depth = depthMembers ms + 1 := by
  rw [Json.depth]

theorem depthMembers_cons (kv : String × Json) (ms : List (String × Json)) :
    depthMembers (kv :: ms) = max kv.2.depth (depthMembers ms) := by
  rw [depthMembers]

theorem depthMembers_nil : depthMembers [] = 0 := by
  rw [depthMembers]

theorem depthMembers_append (l₁ l₂ : List (String × Json)) :
    depthMembers (l₁ ++ l₂) = max (depthMembers l₁) (depthMembers l₂) := by
  induction l₁ with
  | nil => simp [depthMembers_nil]
  | cons kv l₁ ih => rw [List.cons_append, depthMembers_cons, depthMembers_cons, ih, max_assoc]

theorem depthMembers_insert (l₁ l₂ : List (String × Json)) (k : String) (v : Json) :
    depthMembers (l₁ ++ (k, v) :: l₂) = max v.depth (depthMembers (l₁ ++ l₂)) := by
  rw [depthMembers_append, depthMembers_cons, depthMembers_append]
  simp only [max_left_comm]

theorem depth_le_depthMembers (ms : List (String × Json)) (kv : String × Json)
    (h : kv ∈ ms) : kv.2.depth ≤ depthMembers ms := by
  induction ms with
  | nil => cases h
  | cons x ms ih =>
    rw [depthMembers_cons]
    rcases List.mem_cons.mp h with rfl | h
    · exact le_max_left _ _
    · exact le_trans (ih h) (le_max_right _ _)

theorem depth_nested (n : Nat) : (nested n).depth = n := by
  induction n with
  | zero => rfl
  | succ n ih => simp [nested, Json.depth, depthElems, ih]

theorem checkValid_some (j : Json) :
    checkValid (some j) = true ↔ j.depth ≤ maxNestingDepth := by
  simp [checkValid]

section CheckedDecoding

variable {σ F : Type} (fields : List F) (name : F → String)
  (store : σ → F → Json → σ × Option JsonError)

theorem Unmarshal_valid (j : Json) (v : σ) (h : j.depth ≤ maxNestingDepth) :
    Unmarshal fields name store (some j) v
      = ((value fields name store { v := v, savedError := none } j).v,
         (value fields name store { v := v, savedError := none } j).savedError) := by
  simp [Unmarshal, h]

theorem Unmarshal_invalid (data : Option Json) (v : σ) (h : checkValid data = false) :
    Unmarshal fields name store data v = (v, some JsonError.SyntaxError) := by
  cases data with
  | none => rfl
  | some j =>
    have hj : ¬ j.depth ≤ maxNestingDepth := by simpa [checkValid] using h
    simp [Unmarshal, hj]

end CheckedDecoding

theorem unwrap_invalid (data : Option Json) (h : checkValid data = false) :
    unwrap data = data := by
  simp [unwrap, Unmarshal_invalid _ _ _ data _ h]

theorem decodeWire_invalid (data : Option Json) (h : checkValid data = false) :
    decodeWire data = Except.error (Failure.error JsonError.SyntaxError) := by
  simp [decodeWire, Unmarshal_invalid _ _ _ data _ h]

theorem unmarshalJSON_invalid (data : Option Json) (h : checkValid data = false) :
    MachineInfo.UnmarshalJSON data = Except.error (Failure.error JsonError.SyntaxError) := by
  unfold MachineInfo.UnmarshalJSON
  rw [unwrap_invalid data h, decodeWire_invalid data h]

theorem unwrap_obj (P : List (String × Json)) (hv : (Json.obj P).depth ≤ maxNestingDepth) :
    unwrap (some (Json.obj P))
      = if (object [WrapperField.Data] WrapperField.name wrapper.store
              { v := {}, savedError := none } P).savedError = none
            ∧ (object [WrapperField.Data] WrapperField.name wrapper.store
              { v := {}, savedError := none } P).v.Data.isSome = true
        then (object [WrapperField.Data] WrapperField.name wrapper.store
              { v := {}, savedError := none } P).v.Data
        else some (Json.obj P) := by
  unfold unwrap
  rw [Unmarshal_valid _ _ _ _ _ hv]
  rfl

theorem decodeWire_obj (P : List (String × Json)) (hv : (Json.obj P).depth ≤ maxNestingDepth) :
    decodeWire (some (Json.obj P))
      = match (object wireFields WireField.name wire.store
              { v := {}, savedError := none } P).savedError with
        | some err => Except.error (Failure.error err)
        | none => fromWire (object wireFields WireField.name wire.store
              { v := {}, savedError := none } P).v := by
  unfold decodeWire
  rw [Unmarshal_valid _ _ _ _ _ hv]
  rfl

theorem unwrap_envelope (j : Json) (hv : j.depth < maxNestingDepth) :
    unwrap (some (Json.obj [("data", j)])) = some j := by
  have hd : (Json.obj [("data", j)]).depth ≤ maxNestingDepth := by
    rw [depth_obj, depthMembers_cons, depthMembers_nil]
    simp only [Nat.max_zero]
    omega
  rw [unwrap_obj _ hd]
  rfl

theorem unwrap_no_data (P : List (String × Json))
    (h : ∀ kv ∈ P, foldName kv.1 ≠ foldName "data") :
    unwrap (some (Json.obj P)) = some (Json.obj P) := by
  by_cases hv : (Json.obj P).depth ≤ maxNestingDepth
  · have hskip : ∀ kv ∈ P, findField [WrapperField.Data] WrapperField.name kv.1 = none := by
      intro kv hkv
      apply findField_eq_none
      intro f hf
      cases f
      exact fun heq => h kv hkv heq.symm
    rw [unwrap_obj P hv, object_skip_all _ _ _ _ P hskip]
    simp
  · exact unwrap_invalid _ (by simpa [checkValid] using hv)

/-- C1, as amended: for every JSON object payload `P` none of whose member
names matches `data` (exactly or case-insensitively) and whose nesting depth
is not exactly 10000, the deepest `encoding/json` accepts, normalization of
the envelope with the single member `data: P` has the same outcome, entity or
failure, as normalization of `P` itself. -/
theorem unmarshal_envelope_eq (P : List (String × Json))
    (h : ∀ kv ∈ P, foldName kv.1 ≠ foldName "data")
    (hd : (Json.obj P).depth ≠ maxNestingDepth) :
    MachineInfo.UnmarshalJSON (some (Json.obj [("data", Json.obj P)]))
      = MachineInfo.UnmarshalJSON (some (Json.obj P)) := by
  by_cases hv : (Json.obj P).depth < maxNestingDepth
  · unfold MachineInfo.UnmarshalJSON
    rw [unwrap_envelope _ hv, unwrap_no_data P h]
  · have h₁ : checkValid (some (Json.obj P)) = false := by
      simp only [checkValid, decide_eq_false_iff_not]
      omega
    have h₂ : checkValid (some (Json.obj [("data", Json.obj P)])) = false := by
      simp only [checkValid, decide_eq_false_iff_not, depth_obj [("data", Json.obj P)],
        depthMembers_cons, depthMembers_nil, Nat.max_zero]
      omega
    rw [unmarshalJSON_invalid _ h₁, unmarshalJSON_invalid _ h₂]

/-- Instance of the amended C1: a payload with a build id and a GPU list, in and out of
an envelope. -/
theorem unmarshal_envelope_eq_witness :
    (∀ kv ∈ [("buildId", Json.str "a"), ("gpus", Json.arr [Json.str "x"])],
        foldName kv.1 ≠ foldName "data") ∧
    (Json.obj [("buildId", Json.str "a"), ("gpus", Json.arr [Json.str "x"])]).depth
      ≠ maxNestingDepth ∧
    MachineInfo.UnmarshalJSON (some (Json.obj [("data",
        Json.obj [("buildId", Json.str "a"), ("gpus", Json.arr [Json.str "x"])])]))
      = MachineInfo.UnmarshalJSON
          (some (Json.obj [("buildId", Json.str "a"), ("gpus", Json.arr [Json.str "x"])])) :=
  ⟨by decide, by decide, unmarshal_envelope_eq _ (by decide) (by decide)⟩

theorem unmarshalJSON_unknown_only (k : String) (v : Json)
    (hdata : foldName k ≠ foldName "data")
    (hk : findField wireFields WireField.name k = none)
    (hv : v.depth < maxNestingDepth) :
    MachineInfo.UnmarshalJSON (some (Json.obj [(k, v)])) = Except.ok MachineInfo.zero := by
  have hd : (Json.obj [(k, v)]).depth ≤ maxNestingDepth := by
    rw [depth_obj, depthMembers_cons, depthMembers_nil]
    simp only [Nat.max_zero]
    omega
  have hno : ∀ kv ∈ [(k, v)], foldName kv.1 ≠ foldName "data" := by
    intro kv hkv
    rw [List.mem_singleton.mp hkv]
    exact hdata
  unfold MachineInfo.UnmarshalJSON
  rw [unwrap_no_data _ hno, decodeWire_obj _ hd, object_cons_skip _ _ _ _ k v [] hk]
  rfl

theorem unmarshalJSON_too_deep (l : List (String × Json)) (k : String) :
    MachineInfo.UnmarshalJSON (some (Json.obj (l ++ [(k, nested 10000)])))
      = Except.error (Failure.error JsonError.SyntaxError) := by
  apply unmarshalJSON_invalid
  simp only [checkValid, decide_eq_false_iff_not, depth_obj, depthMembers_append,
    depthMembers_cons, depthMembers_nil, depth_nested, maxNestingDepth]
  omega

/-- C1, as stated, fails.  The payload with the single member `data: 5` is a
JSON object; normalized directly it is unwrapped to `5` and fails with a type
error, while inside an envelope it is decoded as it stands and succeeds.  The
payload whose single member `data` holds an object with the build id `x` is
normalized directly to the build id `x`, inside an envelope to the empty
entity.  The payload with the single member `x` holding 9999 nested arrays is
nested 10000 deep and decodes, while its envelope is nested 10001 deep and
fails with a syntax error. -/
theorem unmarshal_envelope_counterexample :
    (MachineInfo.UnmarshalJSON (some (Json.obj [("data", Json.num "5")]))
        = Except.error (Failure.error (JsonError.UnmarshalTypeError "number" "")) ∧
      MachineInfo.UnmarshalJSON
          (some (Json.obj [("data", Json.obj [("data", Json.num "5")])]))
        = Except.ok MachineInfo.zero) ∧
    (MachineInfo.UnmarshalJSON
          (some (Json.obj [("data", Json.obj [("buildId", Json.str "x")])]))
        = Except.ok { MachineInfo.zero with BuildID := GoString.lit "x" } ∧
      MachineInfo.UnmarshalJSON (some (Json.obj
          [("data", Json.obj [("data", Json.obj [("buildId", Json.str "x")])])]))
        = Except.ok MachineInfo.zero) ∧
    (MachineInfo.UnmarshalJSON (some (Json.obj [("x", nested 9999)]))
        = Except.ok MachineInfo.zero ∧
      MachineInfo.UnmarshalJSON
          (some (Json.obj [("data", Json.obj [("x", nested 9999)])]))
        = Except.error (Failure.error JsonError.SyntaxError)) ∧
    MachineInfo.UnmarshalJSON
        (some (Json.obj [("data", Json.obj [("data", Json.num "5")])]))
      ≠ MachineInfo.UnmarshalJSON (some (Json.obj [("data", Json.num "5")])) :=
  ⟨⟨rfl, rfl⟩, ⟨rfl, rfl⟩,
   ⟨unmarshalJSON_unknown_only "x" (nested 9999) (by decide) rfl
      (by rw [depth_nested]; decide),
    unmarshalJSON_invalid _ (by
      simp only [checkValid, decide_eq_false_iff_not, depth_obj, depthMembers_cons,
        depthMembers_nil, depth_nested, maxNestingDepth]
      omega)⟩,
   by decide⟩

/-- C9, as amended: for every JSON object payload, every key that matches
neither `data` nor any known field name, exactly or case-insensitively, and
every JSON value nested less than 10000 deep (so that the member does not
push a payload `encoding/json` accepts beyond its depth limit), adding the
member anywhere in the payload changes nothing: normalization has the same
outcome, the same entity or the same failure. -/
theorem unmarshal_unknown_member (l₁ l₂ : List (String × Json)) (k : String) (v : Json)
    (hdata : foldName k ≠ foldName "data")
    (hk : ∀ f ∈ wireFields, foldName f.name ≠ foldName k)
    (hv : v.depth < maxNestingDepth) :
    MachineInfo.UnmarshalJSON (some (Json.obj (l₁ ++ (k, v) :: l₂)))
      = MachineInfo.UnmarshalJSON (some (Json.obj (l₁ ++ l₂))) := by
  have hw : findField [WrapperField.Data] WrapperField.name k = none := by
    apply findField_eq_none
    intro f _
    cases f
    exact fun heq => hdata heq.symm
  have hf : findField wireFields WireField.name k = none :=
    findField_eq_none wireFields WireField.name hk
  have hdepth : (Json.obj (l₁ ++ (k, v) :: l₂)).depth ≤ maxNestingDepth ↔
      (Json.obj (l₁ ++ l₂)).depth ≤ maxNestingDepth := by
    rw [depth_obj, depth_obj, depthMembers_insert]
    omega
  by_cases hB : (Json.obj (l₁ ++ l₂)).depth ≤ maxNestingDepth
  · have hA := hdepth.mpr hB
    unfold MachineInfo.UnmarshalJSON
    rw [unwrap_obj _ hA, unwrap_obj _ hB, object_insert_skip _ _ _ _ k v l₁ l₂ hw]
    split
    · rfl
    · rw [decodeWire_obj _ hA, decodeWire_obj _ hB, object_insert_skip _ _ _ _ k v l₁ l₂ hf]
  · have hA : ¬ (Json.obj (l₁ ++ (k, v) :: l₂)).depth ≤ maxNestingDepth :=
      fun h => hB (hdepth.mp h)
    rw [unmarshalJSON_invalid _ (by simpa [checkValid] using hA),
      unmarshalJSON_invalid _ (by simpa [checkValid] using hB)]

/-- Instance of the amended C9: the unknown member `firstSeen: 7` between two known
members. -/
theorem unmarshal_unknown_member_witness :
    foldName "firstSeen" ≠ foldName "data" ∧
    (∀ f ∈ wireFields, foldName f.name ≠ foldName "firstSeen") ∧
    (Json.num "7").depth < maxNestingDepth ∧
    MachineInfo.UnmarshalJSON (some (Json.obj
        ([("buildId", Json.str "a")] ++
          ("firstSeen", Json.num "7") :: [("ip", Json.str "1.2.3.4")])))
      = MachineInfo.UnmarshalJSON (some (Json.obj
        ([("buildId", Json.str "a")] ++ [("ip", Json.str "1.2.3.4")]))) :=
  ⟨by decide, by decide, by decide,
    unmarshal_unknown_member _ _ "firstSeen" (Json.num "7") (by decide) (by decide)
      (by decide)⟩

/-- C9, as stated, fails.  `BUILDID` is none of the known field names and is
not `data`, yet added to the empty object it fills the build id; `Data` is
none of them either, yet added with the value `5` it makes normalization
fail; and `x` matches no known name at all, yet added with 10000 nested
arrays to a payload that decodes it makes normalization fail with a syntax
error. -/
theorem unmarshal_unknown_member_counterexample :
    ("BUILDID" ∉ wireFields.map WireField.name ∧ "BUILDID" ≠ "data" ∧
      ∃ m, MachineInfo.UnmarshalJSON (some (Json.obj [])) = Except.ok m ∧
        MachineInfo.UnmarshalJSON (some (Json.obj ([] ++ [("BUILDID", Json.str "z")])))
          ≠ Except.ok m) ∧
    ("Data" ∉ wireFields.map WireField.name ∧ "Data" ≠ "data" ∧
      ∃ m, MachineInfo.UnmarshalJSON (some (Json.obj [])) = Except.ok m ∧
        MachineInfo.UnmarshalJSON (some (Json.obj ([] ++ [("Data", Json.num "5")])))
          = Except.error (Failure.error (JsonError.UnmarshalTypeError "number" ""))) ∧
    ("x" ∉ wireFields.map WireField.name ∧ "x" ≠ "data" ∧
      ∃ m, MachineInfo.UnmarshalJSON (some (Json.obj [("buildId", Json.str "a")]))
          = Except.ok m ∧
        MachineInfo.UnmarshalJSON
            (some (Json.obj ([("buildId", Json.str "a")] ++ [("x", nested 10000)])))
          = Except.error (Failure.error JsonError.SyntaxError)) :=
  ⟨⟨by decide, by decide, _, rfl, by decide⟩, ⟨by decide, by decide, _, rfl, by decide⟩,
   ⟨by decide, by decide, _, rfl, unmarshalJSON_too_deep _ "x"⟩⟩

/-! ## Lemmas on the wire struct -/

theorem store_getString (w : wire) (g f : WireField) (v : Json) (hf : f.isSlice = false) :
    (wire.store w g v).1.getString f
      = if g = f then (storeString (w.getString f) f.name v).1 else w.getString f := by
  by_cases h : g = f
  · subst h
    cases g <;> first | rfl | (exact absurd hf (by decide))
  · rw [if_neg h]
    cases g <;> cases f <;> first | rfl | (exact absurd rfl h)

theorem store_GPUs (w : wire) (g : WireField) (v : Json) :
    (wire.store w g v).1.GPUs
      = if g = WireField.GPUs then (storeSlice w.GPUs WireField.GPUs.name v).1 else w.GPUs := by
  cases g <;> rfl

theorem store_FileTree (w : wire) (g : WireField) (v : Json) :
    (wire.store w g v).1.FileTree
      = if g = WireField.FileTree then (storeSlice w.FileTree WireField.FileTree.name v).1
        else w.FileTree := by
  cases g <;> rfl

theorem getString_zero (f : WireField) : ({} : wire).getString f = [] := by
  cases f <;> rfl

theorem storeString_lit (cur : GoString) (field s : String) :
    (storeString cur field (Json.str s)).1 = GoString.lit s := rfl

theorem storeString_not_str (cur : GoString) (field : String) (v : Json)
    (h : v.isStr = false) : (storeString cur field v).1 = cur := by
  cases v <;> first | rfl | (exact absurd h (by simp [Json.isStr]))

theorem storeString_error (cur : GoString) (field : String) (v : Json) :
    (storeString cur field v).2 = none ↔ v.isStrOrNull = true := by
  cases v <;> simp [storeString, Json.isStrOrNull]

theorem decodeElems_error (field : String) (es : List Json) (old : List GoString) :
    (decodeElems field es old).2 = none ↔ es.all Json.isStrOrNull = true := by
  induction es generalizing old with
  | nil => simp [decodeElems]
  | cons e es ih =>
    have h := storeString_error (old.headD []) field e
    simp only [decodeElems, List.all_cons, Bool.and_eq_true]
    cases hr : (storeString (old.headD []) field e).2 with
    | none =>
      rw [hr] at h
      simp only [true_iff] at h
      simp [h, ih]
    | some err =>
      rw [hr] at h
      have h' : ¬ e.isStrOrNull = true := fun hc => by simpa using h.mpr hc
      simp [h']

theorem storeSlice_error (cur : StringSlice) (field : String) (v : Json) :
    (storeSlice cur field v).2 = none ↔
      (match v with
        | Json.null => true
        | Json.arr es => es.all Json.isStrOrNull
        | _ => false) = true := by
  cases v with
  | arr es =>
    cases es with
    | nil => simp [storeSlice]
    | cons e es =>
      simp only [storeSlice]
      exact decodeElems_error field (e :: es) _
  | null => simp [storeSlice]
  | bool b => simp [storeSlice]
  | num n => simp [storeSlice]
  | str s => simp [storeSlice]
  | obj ms => simp [storeSlice]

theorem store_error (w : wire) (f : WireField) (v : Json) :
    (wire.store w f v).2 = none ↔ compatible f v = true := by
  cases f <;>
    first
    | exact storeString_error _ _ v
    | exact storeSlice_error _ _ v

theorem saveError_savedError {σ : Type} (d : decodeState σ) (e : Option JsonError) :
    (d.saveError e).savedError = none ↔ d.savedError = none ∧ e = none := by
  unfold decodeState.saveError
  cases h : d.savedError <;> simp [h]

theorem saveError_v {σ : Type} (d : decodeState σ) (e : Option JsonError) :
    (d.saveError e).v = d.v := by
  unfold decodeState.saveError
  cases h : d.savedError <;> rfl

theorem saveError_none {σ : Type} (d : decodeState σ) : d.saveError none = d := by
  unfold decodeState.saveError
  cases h : d.savedError
  · cases d
    simp at h
    simp [h]
  · rfl

section ObjectSteps

variable {σ F : Type} (fields : List F) (name : F → String)
  (store : σ → F → Json → σ × Option JsonError)

theorem object_cons (d : decodeState σ) (kv : String × Json) (l : List (String × Json)) :
    object fields name store d (kv :: l)
      = object fields name store (object fields name store d [kv]) l := by
  simp [object]

theorem object_singleton_v (d : decodeState σ) (kv : String × Json) :
    (object fields name store d [kv]).v
      = match findField fields name kv.1 with
        | none => d.v
        | some f => (store d.v f kv.2).1 := by
  simp only [object, List.foldl_cons, List.foldl_nil]
  cases findField fields name kv.1 <;> simp [saveError_v]

theorem object_singleton_savedError (d : decodeState σ) (kv : String × Json) :
    (object fields name store d [kv]).savedError = none ↔
      d.savedError = none ∧ ∀ f, findField fields name kv.1 = some f →
        (store d.v f kv.2).2 = none := by
  simp only [object, List.foldl_cons, List.foldl_nil]
  cases findField fields name kv.1 <;> simp [saveError_savedError]

end ObjectSteps

theorem object_savedError (P : List (String × Json)) (d : decodeState wire) :
    (object wireFields WireField.name wire.store d P).savedError = none ↔
      d.savedError = none ∧
        ∀ kv ∈ P, ∀ f, assigned kv.1 = some f → compatible f kv.2 = true := by
  induction P generalizing d with
  | nil => simp [object]
  | cons kv P ih =>
    rw [object_cons, ih, object_singleton_savedError]
    simp only [List.mem_cons, forall_eq_or_imp, assigned, store_error]
    tauto

theorem object_getString (P : List (String × Json)) (d : decodeState wire) (f : WireField)
    (hf : f.isSlice = false) :
    (object wireFields WireField.name wire.store d P).v.getString f
      = match (P.filter (fun kv => decide (assigned kv.1 = some f) && kv.2.isStr)).getLast? with
        | some (_, Json.str s) => GoString.lit s
        | _ => d.v.getString f := by
  induction P using List.reverseRecOn with
  | nil => simp [object]
  | append_singleton l kv ih =>
    rw [object_append, object_singleton_v, List.filter_append]
    by_cases hp : (decide (assigned kv.1 = some f) && kv.2.isStr) = true
    · have hfil : List.filter (fun kv => decide (assigned kv.1 = some f) && kv.2.isStr) [kv]
          = [kv] := by simp [List.filter, hp]
      rw [hfil, List.getLast?_append]
      simp only [Bool.and_eq_true, decide_eq_true_eq] at hp
      obtain ⟨ha, hs⟩ := hp
      obtain ⟨k, v⟩ := kv
      cases v <;> try (simp [Json.isStr] at hs; done)
      simp only [assigned] at ha
      simp [ha, store_getString _ _ _ _ hf, storeString_lit]
    · have hfil : List.filter (fun kv => decide (assigned kv.1 = some f) && kv.2.isStr) [kv]
          = [] := by simp [List.filter, hp]
      rw [hfil, List.append_nil, ← ih]
      simp only [Bool.and_eq_true, decide_eq_true_eq, not_and, Bool.not_eq_true] at hp
      cases hfind : findField wireFields WireField.name kv.1 with
      | none => rfl
      | some g =>
        simp only [store_getString _ _ _ _ hf]
        by_cases hg : g = f
        · subst hg
          rw [if_pos rfl]
          exact storeString_not_str _ _ _ (hp hfind)
        · rw [if_neg hg]

theorem object_GPUs (P : List (String × Json)) (d : decodeState wire) :
    (object wireFields WireField.name wire.store d P).v.GPUs
      = P.foldl (fun s kv =>
          if assigned kv.1 = some WireField.GPUs
          then (storeSlice s WireField.GPUs.name kv.2).1 else s) d.v.GPUs := by
  induction P generalizing d with
  | nil => rfl
  | cons kv P ih =>
    rw [object_cons, ih, object_singleton_v, List.foldl_cons]
    congr 1
    unfold assigned
    cases hfind : findField wireFields WireField.name kv.1 with
    | none => simp
    | some g =>
      simp only [store_GPUs, Option.some.injEq]

theorem object_FileTree (P : List (String × Json)) (d : decodeState wire) :
    (object wireFields WireField.name wire.store d P).v.FileTree
      = P.foldl (fun s kv =>
          if assigned kv.1 = some WireField.FileTree
          then (storeSlice s WireField.FileTree.name kv.2).1 else s) d.v.FileTree := by
  induction P generalizing d with
  | nil => rfl
  | cons kv P ih =>
    rw [object_cons, ih, object_singleton_v, List.foldl_cons]
    congr 1
    unfold assigned
    cases hfind : findField wireFields WireField.name kv.1 with
    | none => simp
    | some g =>
      simp only [store_FileTree, Option.some.injEq]

/-! ## Lemmas on the decoded wire struct -/

theorem pick_eq_firstNonEmpty (vals : List GoString) : pick vals = firstNonEmpty vals := by
  induction vals with
  | nil => rfl
  | cons v vals ih =>
    unfold pick firstNonEmpty
    by_cases h : v = []
    · simp only [h, ne_eq, not_true_eq_false, if_false, List.find?_cons, decide_False]
      exact ih
    · simp [h, List.find?_cons]

theorem graphicsCard_eq (w : wire) :
    graphicsCard w = Except.ok
      (if pick [w.GraphicsCard1, w.GraphicsCard2] = [] then w.GPUs.elems.headD []
       else pick [w.GraphicsCard1, w.GraphicsCard2]) := by
  unfold graphicsCard index
  by_cases hp : pick [w.GraphicsCard1, w.GraphicsCard2] = []
  · cases he : w.GPUs.elems with
    | nil => simp [hp, he]
    | cons x xs => simp [hp, he]
  · simp [hp]

theorem decodeWire_eq (data : Option Json) :
    decodeWire data
      = match (Unmarshal wireFields WireField.name wire.store data {}).2 with
        | some err => Except.error (Failure.error err)
        | none => fromWire (decodedWire data) := rfl

theorem value_error_none (j : Json) :
    (value wireFields WireField.name wire.store { v := {}, savedError := none } j).savedError
      = none ↔ wellTyped (some j) = true := by
  cases j with
  | obj ms =>
    simp only [value, wellTyped, object_savedError, true_and, List.all_eq_true]
    constructor
    · intro h kv hkv
      cases ha : assigned kv.1 with
      | none => rfl
      | some f => exact h kv hkv f ha
    · intro h kv hkv f ha
      have := h kv hkv
      rw [ha] at this
      exact this
  | null => simp [value, wellTyped]
  | bool b => simp [value, wellTyped, decodeState.saveError]
  | num n => simp [value, wellTyped, decodeState.saveError]
  | str s => simp [value, wellTyped, decodeState.saveError]
  | arr es => simp [value, wellTyped, decodeState.saveError]

theorem unmarshal_error_none (data : Option Json) :
    (Unmarshal wireFields WireField.name wire.store data {}).2 = none
      ↔ checkValid data = true ∧ wellTyped data = true := by
  cases hv : checkValid data with
  | false =>
    rw [Unmarshal_invalid _ _ _ data _ hv]
    simp
  | true =>
    cases data with
    | none => simp [checkValid] at hv
    | some j =>
      rw [Unmarshal_valid _ _ _ j _ ((checkValid_some j).mp hv)]
      simp only [true_and]
      exact value_error_none j

theorem variantValue_nil (f : WireField) : variantValue [] f = [] := rfl

theorem decodedWire_valid (j : Json) (hv : checkValid (some j) = true) :
    decodedWire (some j)
      = (value wireFields WireField.name wire.store { v := {}, savedError := none } j).v := by
  unfold decodedWire
  rw [Unmarshal_valid _ _ _ j _ ((checkValid_some j).mp hv)]

theorem value_not_obj (j : Json) (h : ∀ ms, j ≠ Json.obj ms) :
    (value wireFields WireField.name wire.store { v := {}, savedError := none } j).v = {} := by
  cases j with
  | obj ms => exact absurd rfl (h ms)
  | null => rfl
  | bool b => simp [value, saveError_v]
  | num n => simp [value, saveError_v]
  | str s => simp [value, saveError_v]
  | arr es => simp [value, saveError_v]

theorem members_not_obj (j : Json) (h : ∀ ms, j ≠ Json.obj ms) :
    Json.members (some j) = [] := by
  cases j with
  | obj ms => exact absurd rfl (h ms)
  | null => rfl
  | bool b => rfl
  | num n => rfl
  | str s => rfl
  | arr es => rfl

theorem decodedWire_getString (data : Option Json) (f : WireField) (hf : f.isSlice = false)
    (hv : checkValid data = true) :
    (decodedWire data).getString f = variantValue (Json.members data) f := by
  cases data with
  | none => simp [checkValid] at hv
  | some j =>
    rw [decodedWire_valid j hv]
    by_cases h : ∃ ms, j = Json.obj ms
    · obtain ⟨ms, rfl⟩ := h
      simp only [value, Json.members, variantValue]
      rw [object_getString ms _ f hf, getString_zero]
    · have h' : ∀ ms, j ≠ Json.obj ms := fun ms hms => h ⟨ms, hms⟩
      rw [value_not_obj j h', members_not_obj j h', getString_zero, variantValue_nil]

theorem decodedWire_GPUs (data : Option Json) (hv : checkValid data = true) :
    (decodedWire data).GPUs = sliceValue (Json.members data) WireField.GPUs := by
  cases data with
  | none => simp [checkValid] at hv
  | some j =>
    rw [decodedWire_valid j hv]
    by_cases h : ∃ ms, j = Json.obj ms
    · obtain ⟨ms, rfl⟩ := h
      simp only [value, Json.members, sliceValue]
      rw [object_GPUs ms _]
    · have h' : ∀ ms, j ≠ Json.obj ms := fun ms hms => h ⟨ms, hms⟩
      rw [value_not_obj j h', members_not_obj j h']
      rfl

theorem decodedWire_FileTree (data : Option Json) (hv : checkValid data = true) :
    (decodedWire data).FileTree = sliceValue (Json.members data) WireField.FileTree := by
  cases data with
  | none => simp [checkValid] at hv
  | some j =>
    rw [decodedWire_valid j hv]
    by_cases h : ∃ ms, j = Json.obj ms
    · obtain ⟨ms, rfl⟩ := h
      simp only [value, Json.members, sliceValue]
      rw [object_FileTree ms _]
    · have h' : ∀ ms, j ≠ Json.obj ms := fun ms hms => h ⟨ms, hms⟩
      rw [value_not_obj j h', members_not_obj j h']
      rfl

theorem wrapper_data (P : List (String × Json)) (d : decodeState wrapper) :
    (object [WrapperField.Data] WrapperField.name wrapper.store d P).v.Data = d.v.Data ∨
    ∃ kv ∈ P, (object [WrapperField.Data] WrapperField.name wrapper.store d P).v.Data
      = some kv.2 := by
  induction P generalizing d with
  | nil => exact Or.inl rfl
  | cons kv P ih =>
    rw [object_cons]
    rcases ih (object [WrapperField.Data] WrapperField.name wrapper.store d [kv]) with h | h
    · rw [h, object_singleton_v]
      cases hfind : findField [WrapperField.Data] WrapperField.name kv.1 with
      | none => exact Or.inl rfl
      | some f =>
        cases f
        exact Or.inr ⟨kv, List.mem_cons_self _ _, rfl⟩
    · obtain ⟨x, hx, hd⟩ := h
      exact Or.inr ⟨x, List.mem_cons_of_mem _ hx, hd⟩

theorem checkValid_unwrap (data : Option Json) : checkValid (unwrap data) = checkValid data := by
  cases hv : checkValid data with
  | false => rw [unwrap_invalid data hv, hv]
  | true =>
    cases data with
    | none => simp [checkValid] at hv
    | some j =>
      have hj := (checkValid_some j).mp hv
      by_cases h : ∃ ms, j = Json.obj ms
      · obtain ⟨ms, rfl⟩ := h
        rw [unwrap_obj ms hj]
        split
        · rename_i hc
          rcases wrapper_data ms { v := {}, savedError := none } with hd | ⟨kv, hkv, hd⟩
          · rw [hd] at hc
            simp at hc
          · rw [hd, checkValid_some]
            have h₁ := depth_le_depthMembers ms kv hkv
            rw [depth_obj] at hj
            omega
        · exact hv
      · have h' : ∀ ms, j ≠ Json.obj ms := fun ms hms => h ⟨ms, hms⟩
        have hu : unwrap (some j) = some j := by
          unfold unwrap
          rw [Unmarshal_valid _ _ _ j _ hj]
          cases j with
          | obj ms => exact absurd rfl (h' ms)
          | null => rfl
          | bool b => simp [value, decodeState.saveError]
          | num n => simp [value, decodeState.saveError]
          | str s => simp [value, decodeState.saveError]
          | arr es => simp [value, decodeState.saveError]
        rw [hu, hv]

theorem store_error_kind (w : wire) (f : WireField) (v : Json) (e : JsonError)
    (h : (wire.store w f v).2 = some e) :
    ∃ value field, e = JsonError.UnmarshalTypeError value field := by
  have hs : ∀ (cur : GoString) (field : String) (v : Json) (e : JsonError),
      (storeString cur field v).2 = some e →
      ∃ value field, e = JsonError.UnmarshalTypeError value field := by
    intro cur field v e he
    cases v <;> simp [storeString] at he <;> exact ⟨_, _, he.symm⟩
  have hel : ∀ (field : String) (es : List Json) (old : List GoString) (e : JsonError),
      (decodeElems field es old).2 = some e →
      ∃ value field, e = JsonError.UnmarshalTypeError value field := by
    intro field es
    induction es with
    | nil => intro old e he; simp [decodeElems] at he
    | cons x es ih =>
      intro old e he
      simp only [decodeElems] at he
      cases hx : (storeString (old.headD []) field x).2 with
      | some err =>
        rw [hx] at he
        simp only [Option.some.injEq] at he
        rw [← he]
        exact hs _ _ _ _ hx
      | none =>
        rw [hx] at he
        exact ih _ _ he
  have hsl : ∀ (cur : StringSlice) (field : String) (v : Json) (e : JsonError),
      (storeSlice cur field v).2 = some e →
      ∃ value field, e = JsonError.UnmarshalTypeError value field := by
    intro cur field v e he
    cases v with
    | arr es =>
      cases es with
      | nil => simp [storeSlice] at he
      | cons x es =>
        simp only [storeSlice] at he
        exact hel _ _ _ _ he
    | null => simp [storeSlice] at he
    | bool b => simp [storeSlice] at he; exact ⟨_, _, he.symm⟩
    | num n => simp [storeSlice] at he; exact ⟨_, _, he.symm⟩
    | str s => simp [storeSlice] at he; exact ⟨_, _, he.symm⟩
    | obj ms => simp [storeSlice] at he; exact ⟨_, _, he.symm⟩
  cases f <;>
    first
    | exact hs _ _ v e h
    | exact hsl _ _ v e h

theorem saveError_some {σ : Type} (d : decodeState σ) (e : Option JsonError) (x : JsonError)
    (h : (d.saveError e).savedError = some x) : d.savedError = some x ∨ e = some x := by
  unfold decodeState.saveError at h
  cases hs : d.savedError with
  | none =>
    rw [hs] at h
    exact Or.inr h
  | some y =>
    rw [hs] at h
    simp only at h
    rw [hs] at h
    exact Or.inl h

theorem object_error_kind (P : List (String × Json)) (d : decodeState wire)
    (hd : ∀ e, d.savedError = some e →
      ∃ value field, e = JsonError.UnmarshalTypeError value field)
    (e : JsonError)
    (h : (object wireFields WireField.name wire.store d P).savedError = some e) :
    ∃ value field, e = JsonError.UnmarshalTypeError value field := by
  induction P generalizing d with
  | nil => exact hd e h
  | cons kv P ih =>
    rw [object_cons] at h
    refine ih _ ?_ h
    intro e' he'
    simp only [object, List.foldl_cons, List.foldl_nil] at he'
    cases hfind : findField wireFields WireField.name kv.1 with
    | none =>
      rw [hfind] at he'
      exact hd e' he'
    | some f =>
      rw [hfind] at he'
      rcases saveError_some _ _ _ he' with h₁ | h₁
      · exact hd e' h₁
      · exact store_error_kind _ _ _ _ h₁

theorem fromWire_eq (w : wire) :
    fromWire w = Except.ok
    { BuildID := pick [w.BuildID1, w.BuildID2, w.BuildID3]
      IP := pick [w.IP1, w.IP2, w.IP3]
      UserName := pick [w.UserName1, w.UserName2, w.UserName3]
      ComputerName := pick [w.ComputerName1, w.ComputerName2, w.ComputerName3]
      OperationSystem := pick [w.OperationSystem1, w.OperationSystem2,
        w.OperatingSystem1, w.OperatingSystem2, w.OSVersion]
      Processor := pick [w.Processor1, w.Processor2, w.CPUName]
      InstalledRAM := pick [w.InstalledRAM1, w.InstalledRAM2, w.RAMSize]
      GraphicsCard :=
        if pick [w.GraphicsCard1, w.GraphicsCard2] = [] then w.GPUs.elems.headD []
        else pick [w.GraphicsCard1, w.GraphicsCard2]
      Country := pick [w.Country1, w.Country2]
      SystemLanguage := pick [w.SystemLanguage1, w.SystemLanguage2, w.Language]
      TimeZone := pick [w.TimeZone1, w.TimeZone2, w.TimeZone3]
      DisplayResolution := pick [w.DisplayResolution1, w.DisplayResolution2,
        w.ScreenResolution]
      FileType := pick [w.FileType1, w.FileType2]
      FileTree := w.FileTree.toOption } := by
  unfold fromWire
  rw [graphicsCard_eq]

theorem unmarshalJSON_error_kind (data : Option Json) (hv : checkValid data = true)
    (e : Failure) (h : MachineInfo.UnmarshalJSON data = Except.error e) :
    ∃ value field, e = Failure.error (JsonError.UnmarshalTypeError value field) := by
  have hu : checkValid (unwrap data) = true := by rw [checkValid_unwrap, hv]
  unfold MachineInfo.UnmarshalJSON at h
  cases hd : unwrap data with
  | none => rw [hd] at hu; simp [checkValid] at hu
  | some j =>
    rw [hd] at h hu
    have hj := (checkValid_some j).mp hu
    unfold decodeWire at h
    rw [Unmarshal_valid _ _ _ j _ hj] at h
    simp only at h
    cases hs : (value wireFields WireField.name wire.store
        { v := {}, savedError := none } j).savedError with
    | none =>
      rw [hs] at h
      rw [fromWire_eq] at h
      cases h
    | some err =>
      rw [hs] at h
      simp only [Except.error.injEq] at h
      rw [← h]
      have : ∃ value field, err = JsonError.UnmarshalTypeError value field := by
        cases j with
        | obj ms =>
          exact object_error_kind ms _ (fun e he => by simp at he) err hs
        | null => simp [value] at hs
        | bool b => simp [value, decodeState.saveError] at hs; exact ⟨_, _, hs.symm⟩
        | num n => simp [value, decodeState.saveError] at hs; exact ⟨_, _, hs.symm⟩
        | str s => simp [value, decodeState.saveError] at hs; exact ⟨_, _, hs.symm⟩
        | arr es => simp [value, decodeState.saveError] at hs; exact ⟨_, _, hs.symm⟩
      obtain ⟨vk, fd, hvk⟩ := this
      exact ⟨vk, fd, by rw [hvk]⟩

theorem unmarshalJSON_ok_iff (data : Option Json) (m : MachineInfo) :
    MachineInfo.UnmarshalJSON data = Except.ok m ↔
      checkValid (unwrap data) = true ∧ wellTyped (unwrap data) = true ∧
        fromWire (decodedWire (unwrap data)) = Except.ok m := by
  unfold MachineInfo.UnmarshalJSON
  rw [decodeWire_eq, ← and_assoc, ← unmarshal_error_none]
  cases h : (Unmarshal wireFields WireField.name wire.store (unwrap data) {}).2 with
  | none => simp
  | some err => simp

/-! ## MachineInfo normalization: priority of the name variants -/

/-- C2, as amended: for every payload that `MachineInfo.UnmarshalJSON` decodes
successfully, each canonical string attribute other than the graphics card
equals the first non-empty value among its name variants in their listed
order, and is empty when all of them are empty, where the value of a variant
is the string of the last string-valued member that `encoding/json` decodes
into the variant's field: a member whose key equals the variant exactly or,
when the key equals no known field name exactly, matches it
case-insensitively before any other field in declaration order.  A member
whose key is one of the known field names is decoded into that very field. -/
theorem unmarshal_variant_priority :
    (∀ f : WireField, assigned f.name = some f) ∧
    ∀ (data : Option Json) (m : MachineInfo),
      MachineInfo.UnmarshalJSON data = Except.ok m →
        m.BuildID = firstNonEmpty
            [variantValue (payloadMembers data) WireField.BuildID1,
             variantValue (payloadMembers data) WireField.BuildID2,
             variantValue (payloadMembers data) WireField.BuildID3] ∧
        m.IP = firstNonEmpty
            [variantValue (payloadMembers data) WireField.IP1,
             variantValue (payloadMembers data) WireField.IP2,
             variantValue (payloadMembers data) WireField.IP3] ∧
        m.UserName = firstNonEmpty
            [variantValue (payloadMembers data) WireField.UserName1,
             variantValue (payloadMembers data) WireField.UserName2,
             variantValue (payloadMembers data) WireField.UserName3] ∧
        m.ComputerName = firstNonEmpty
            [variantValue (payloadMembers data) WireField.ComputerName1,
             variantValue (payloadMembers data) WireField.ComputerName2,
             variantValue (payloadMembers data) WireField.ComputerName3] ∧
        m.OperationSystem = firstNonEmpty
            [variantValue (payloadMembers data) WireField.OperationSystem1,
             variantValue (payloadMembers data) WireField.OperationSystem2,
             variantValue (payloadMembers data) WireField.OperatingSystem1,
             variantValue (payloadMembers data) WireField.OperatingSystem2,
             variantValue (payloadMembers data) WireField.OSVersion] ∧
        m.Processor = firstNonEmpty
            [variantValue (payloadMembers data) WireField.Processor1,
             variantValue (payloadMembers data) WireField.Processor2,
             variantValue (payloadMembers data) WireField.CPUName] ∧
        m.InstalledRAM = firstNonEmpty
            [variantValue (payloadMembers data) WireField.InstalledRAM1,
             variantValue (payloadMembers data) WireField.InstalledRAM2,
             variantValue (payloadMembers data) WireField.RAMSize] ∧
        m.Country = firstNonEmpty
            [variantValue (payloadMembers data) WireField.Country1,
             variantValue (payloadMembers data) WireField.Country2] ∧
        m.SystemLanguage = firstNonEmpty
            [variantValue (payloadMembers data) WireField.SystemLanguage1,
             variantValue (payloadMembers data) WireField.SystemLanguage2,
             variantValue (payloadMembers data) WireField.Language] ∧
        m.TimeZone = firstNonEmpty
            [variantValue (payloadMembers data) WireField.TimeZone1,
             variantValue (payloadMembers data) WireField.TimeZone2,
             variantValue (payloadMembers data) WireField.TimeZone3] ∧
        m.DisplayResolution = firstNonEmpty
            [variantValue (payloadMembers data) WireField.DisplayResolution1,
             variantValue (payloadMembers data) WireField.DisplayResolution2,
             variantValue (payloadMembers data) WireField.ScreenResolution] ∧
        m.FileType = firstNonEmpty
            [variantValue (payloadMembers data) WireField.FileType1,
             variantValue (payloadMembers data) WireField.FileType2] := by
  refine ⟨fun f => by cases f <;> rfl, ?_⟩
  intro data m h
  obtain ⟨hv, _, hw⟩ := (unmarshalJSON_ok_iff data m).mp h
  rw [fromWire_eq] at hw
  have hm := (Except.ok.inj hw).symm
  subst hm
  have e : ∀ f, f.isSlice = false →
      variantValue (payloadMembers data) f = (decodedWire (unwrap data)).getString f :=
    fun f hf => (decodedWire_getString (unwrap data) f hf hv).symm
  rw [e WireField.BuildID1 rfl, e WireField.BuildID2 rfl, e WireField.BuildID3 rfl,
    e WireField.IP1 rfl, e WireField.IP2 rfl, e WireField.IP3 rfl, e WireField.UserName1 rfl,
    e WireField.UserName2 rfl, e WireField.UserName3 rfl, e WireField.ComputerName1 rfl,
    e WireField.ComputerName2 rfl, e WireField.ComputerName3 rfl,
    e WireField.OperationSystem1 rfl, e WireField.OperationSystem2 rfl,
    e WireField.OperatingSystem1 rfl, e WireField.OperatingSystem2 rfl,
    e WireField.OSVersion rfl, e WireField.Processor1 rfl, e WireField.Processor2 rfl,
    e WireField.CPUName rfl, e WireField.InstalledRAM1 rfl, e WireField.InstalledRAM2 rfl,
    e WireField.RAMSize rfl, e WireField.Country1 rfl, e WireField.Country2 rfl,
    e WireField.SystemLanguage1 rfl, e WireField.SystemLanguage2 rfl, e WireField.Language rfl,
    e WireField.TimeZone1 rfl, e WireField.TimeZone2 rfl, e WireField.TimeZone3 rfl,
    e WireField.DisplayResolution1 rfl, e WireField.DisplayResolution2 rfl,
    e WireField.ScreenResolution rfl, e WireField.FileType1 rfl, e WireField.FileType2 rfl]
  refine ⟨?_, ?_, ?_, ?_, ?_, ?_, ?_, ?_, ?_, ?_, ?_, ?_⟩ <;> exact pick_eq_firstNonEmpty _

/-- Instance of the amended C2: `buildId` wins over `BuildID`, and `BuildID` alone is
taken. -/
theorem unmarshal_variant_priority_witness :
    assigned WireField.BuildID2.name = some WireField.BuildID2 ∧
    MachineInfo.UnmarshalJSON
        (some (Json.obj [("buildId", Json.str "a"), ("BuildID", Json.str "b")]))
      = Except.ok { MachineInfo.zero with BuildID := GoString.lit "a" } ∧
    GoString.lit "a" = firstNonEmpty
      [variantValue [("buildId", Json.str "a"), ("BuildID", Json.str "b")] WireField.BuildID1,
       variantValue [("buildId", Json.str "a"), ("BuildID", Json.str "b")] WireField.BuildID2,
       variantValue [("buildId", Json.str "a"), ("BuildID", Json.str "b")] WireField.BuildID3] ∧
    MachineInfo.UnmarshalJSON (some (Json.obj [("BuildID", Json.str "b")]))
      = Except.ok { MachineInfo.zero with BuildID := GoString.lit "b" } ∧
    GoString.lit "b" = firstNonEmpty
      [variantValue [("BuildID", Json.str "b")] WireField.BuildID1,
       variantValue [("BuildID", Json.str "b")] WireField.BuildID2,
       variantValue [("BuildID", Json.str "b")] WireField.BuildID3] :=
  ⟨unmarshal_variant_priority.1 WireField.BuildID2, rfl,
   (unmarshal_variant_priority.2
      (some (Json.obj [("buildId", Json.str "a"), ("BuildID", Json.str "b")]))
      { MachineInfo.zero with BuildID := GoString.lit "a" } rfl).1,
   rfl,
   (unmarshal_variant_priority.2 (some (Json.obj [("BuildID", Json.str "b")]))
      { MachineInfo.zero with BuildID := GoString.lit "b" } rfl).1⟩

/-- C2, as stated, fails: in the payload with the single member
`BUILDID: "z"` each of the variants `buildId`, `BuildID`, `buildid` is
absent, yet the build id is `z`, not the empty string. -/
theorem unmarshal_variant_priority_counterexample :
    (∀ kv ∈ [("BUILDID", Json.str "z")],
        kv.1 ≠ "buildId" ∧ kv.1 ≠ "BuildID" ∧ kv.1 ≠ "buildid") ∧
    ∃ m, MachineInfo.UnmarshalJSON (some (Json.obj [("BUILDID", Json.str "z")]))
        = Except.ok m ∧ m.BuildID = GoString.lit "z" ∧ m.BuildID ≠ [] :=
  ⟨by decide, _, rfl, rfl, by decide⟩

/-! ## MachineInfo normalization: graphics card, type mismatches, missing fields -/

theorem foldl_slice_unassigned (P : List (String × Json)) (f : WireField) (s : StringSlice)
    (h : ∀ kv ∈ P, assigned kv.1 ≠ some f) :
    P.foldl (fun s kv =>
      if assigned kv.1 = some f then (storeSlice s f.name kv.2).1 else s) s = s := by
  induction P generalizing s with
  | nil => rfl
  | cons kv P ih =>
    rw [List.foldl_cons, if_neg (h kv (List.mem_cons_self _ _))]
    exact ih s (fun kv hkv => h kv (List.mem_cons_of_mem _ hkv))

/-- C3, as amended: `MachineInfo.UnmarshalJSON` never panics on the index
expression `GPUs[0]`, and for every payload it decodes successfully the
graphics card equals the first non-empty of the values of `graphicsCard` and
`GraphicsCard` when there is one; otherwise the first element of the decoded
`gpus` slice when that slice is non-empty; otherwise the empty string.  The
values are those `encoding/json` decodes: a member counts for the field its
key equals exactly or, failing any exact match, case-insensitively; when the
last member decoded into `gpus` is an array that starts with a string, that
string is the first element of the slice. -/
theorem unmarshal_graphics_card :
    (∀ data, MachineInfo.UnmarshalJSON data ≠ Except.error Failure.indexOutOfRange) ∧
    (∀ data m, MachineInfo.UnmarshalJSON data = Except.ok m →
      (firstNonEmpty [variantValue (payloadMembers data) WireField.GraphicsCard1,
          variantValue (payloadMembers data) WireField.GraphicsCard2] ≠ [] →
        m.GraphicsCard = firstNonEmpty
          [variantValue (payloadMembers data) WireField.GraphicsCard1,
           variantValue (payloadMembers data) WireField.GraphicsCard2]) ∧
      (firstNonEmpty [variantValue (payloadMembers data) WireField.GraphicsCard1,
          variantValue (payloadMembers data) WireField.GraphicsCard2] = [] →
        (∀ x xs, (sliceValue (payloadMembers data) WireField.GPUs).elems = x :: xs →
          m.GraphicsCard = x) ∧
        ((sliceValue (payloadMembers data) WireField.GPUs).elems = [] →
          m.GraphicsCard = []))) ∧
    (∀ (l₁ l₂ : List (String × Json)) (k s : String) (es : List Json),
      assigned k = some WireField.GPUs → unassigned l₂ [WireField.GPUs] →
      ∃ rest, (sliceValue (l₁ ++ (k, Json.arr (Json.str s :: es)) :: l₂) WireField.GPUs).elems
        = GoString.lit s :: rest) := by
  refine ⟨?_, ?_, ?_⟩
  · intro data
    unfold MachineInfo.UnmarshalJSON
    rw [decodeWire_eq, fromWire_eq]
    cases (Unmarshal wireFields WireField.name wire.store (unwrap data) {}).2 <;> simp
  · intro data m h
    obtain ⟨hv, _, hw⟩ := (unmarshalJSON_ok_iff data m).mp h
    rw [fromWire_eq] at hw
    have hm := (Except.ok.inj hw).symm
    subst hm
    have e : ∀ f, f.isSlice = false →
        variantValue (payloadMembers data) f = (decodedWire (unwrap data)).getString f :=
      fun f hf => (decodedWire_getString (unwrap data) f hf hv).symm
    have eg : sliceValue (payloadMembers data) WireField.GPUs
        = (decodedWire (unwrap data)).GPUs := (decodedWire_GPUs (unwrap data) hv).symm
    rw [e WireField.GraphicsCard1 rfl, e WireField.GraphicsCard2 rfl, eg,
      ← pick_eq_firstNonEmpty]
    simp only [wire.getString]
    refine ⟨fun hne => ?_, fun heq => ⟨fun x xs hx => ?_, fun hx => ?_⟩⟩
    · simp [hne]
    · simp [heq, hx]
    · simp [heq, hx]
  · intro l₁ l₂ k s es hk hl₂
    unfold sliceValue
    rw [List.foldl_append, List.foldl_cons, if_pos hk,
      foldl_slice_unassigned l₂ WireField.GPUs _
        (fun kv hkv => hl₂ kv hkv WireField.GPUs (List.mem_singleton_self _))]
    exact ⟨_, rfl⟩

/-- Instance of the amended C3: without a direct spelling the first GPU is the graphics
card. -/
theorem unmarshal_graphics_card_witness :
    MachineInfo.UnmarshalJSON
        (some (Json.obj [("gpus", Json.arr [Json.str "NVIDIA X", Json.str "AMD Y"])]))
      = Except.ok { MachineInfo.zero with GraphicsCard := GoString.lit "NVIDIA X" } ∧
    firstNonEmpty
        [variantValue [("gpus", Json.arr [Json.str "NVIDIA X", Json.str "AMD Y"])]
          WireField.GraphicsCard1,
         variantValue [("gpus", Json.arr [Json.str "NVIDIA X", Json.str "AMD Y"])]
          WireField.GraphicsCard2] = [] ∧
    assigned "gpus" = some WireField.GPUs ∧ unassigned [] [WireField.GPUs] ∧
    (∃ rest, (sliceValue ([] ++ ("gpus", Json.arr [Json.str "NVIDIA X", Json.str "AMD Y"]) :: [])
        WireField.GPUs).elems = GoString.lit "NVIDIA X" :: rest) ∧
    ∀ x xs, (sliceValue [("gpus", Json.arr [Json.str "NVIDIA X", Json.str "AMD Y"])]
        WireField.GPUs).elems = x :: xs → GoString.lit "NVIDIA X" = x :=
  ⟨rfl, rfl, rfl, by simp [unassigned],
   unmarshal_graphics_card.2.2 [] [] "gpus" "NVIDIA X" [Json.str "AMD Y"] rfl
    (by simp [unassigned]),
   ((unmarshal_graphics_card.2.1
      (some (Json.obj [("gpus", Json.arr [Json.str "NVIDIA X", Json.str "AMD Y"])]))
      { MachineInfo.zero with GraphicsCard := GoString.lit "NVIDIA X" } rfl).2 rfl).1⟩

/-- C3, as stated, fails: the payload with the members `GRAPHICSCARD: "z"`
and `gpus: ["a"]` has neither a `graphicsCard` nor a `GraphicsCard` member
and a non-empty `gpus` array, yet the graphics card is `z`, not `a`. -/
theorem unmarshal_graphics_card_counterexample :
    (∀ kv ∈ [("GRAPHICSCARD", Json.str "z"), ("gpus", Json.arr [Json.str "a"])],
        kv.1 ≠ "graphicsCard" ∧ kv.1 ≠ "GraphicsCard") ∧
    ∃ m, MachineInfo.UnmarshalJSON
          (some (Json.obj [("GRAPHICSCARD", Json.str "z"), ("gpus", Json.arr [Json.str "a"])]))
        = Except.ok m ∧
      m.GraphicsCard = GoString.lit "z" ∧ m.GraphicsCard ≠ GoString.lit "a" :=
  ⟨by decide, _, rfl, rfl, by decide⟩

theorem assigned_fold_ne_data (k : String) (f : WireField) (h : assigned k = some f) :
    foldName k ≠ foldName "data" := by
  have hfold : foldName f.name = foldName k := by
    unfold assigned findField at h
    cases h₁ : wireFields.find? (fun f => decide (f.name = k)) with
    | some g =>
      rw [h₁] at h
      have hg := List.find?_some h₁
      simp only [decide_eq_true_eq] at hg
      cases h
      rw [hg]
    | none =>
      rw [h₁] at h
      have hg := List.find?_some h
      simpa using hg
  rw [← hfold]
  cases f <;> decide

theorem store_null (w : wire) (f : WireField) (hf : f.isSlice = false) :
    wire.store w f Json.null = (w, none) := by
  cases f <;> first | rfl | (exact absurd hf (by decide))

/-- C4, as amended: for a payload that is well-formed JSON nested at most
10000 deep (any other payload fails with a syntax error), normalization
succeeds exactly when the payload it decodes (the payload itself, or the value
of its `data` member when it is unwrapped) is `null` or an object in which
every member decoded into a known field holds a value that field accepts: a
string or `null` for a string field, `null` or an array of strings and `null`s
for `gpus` and `fileTree`; otherwise it fails with a type error.  A number,
boolean, array or object in a string field therefore makes normalization fail
with a type error, while a `null` there is treated as absent: removing the
member changes nothing. -/
theorem unmarshal_type_mismatch :
    (∀ data : Option Json,
      (∃ m, MachineInfo.UnmarshalJSON data = Except.ok m) ↔
        checkValid data = true ∧ wellTyped (unwrap data) = true) ∧
    (∀ (data : Option Json) (e : Failure), checkValid data = true →
      MachineInfo.UnmarshalJSON data = Except.error e →
      ∃ value field, e = Failure.error (JsonError.UnmarshalTypeError value field)) ∧
    (∀ data : Option Json, checkValid data = false →
      MachineInfo.UnmarshalJSON data = Except.error (Failure.error JsonError.SyntaxError)) ∧
    (∀ (l₁ l₂ : List (String × Json)) (k : String) (f : WireField) (v : Json),
      (∀ kv ∈ l₁ ++ (k, v) :: l₂, foldName kv.1 ≠ foldName "data") →
      (Json.obj (l₁ ++ (k, v) :: l₂)).depth ≤ maxNestingDepth →
      assigned k = some f → compatible f v = false →
      ∃ value field, MachineInfo.UnmarshalJSON (some (Json.obj (l₁ ++ (k, v) :: l₂)))
        = Except.error (Failure.error (JsonError.UnmarshalTypeError value field))) ∧
    (∀ (l₁ l₂ : List (String × Json)) (k : String) (f : WireField),
      assigned k = some f → f.isSlice = false →
      MachineInfo.UnmarshalJSON (some (Json.obj (l₁ ++ (k, Json.null) :: l₂)))
        = MachineInfo.UnmarshalJSON (some (Json.obj (l₁ ++ l₂)))) := by
  have hA : ∀ data : Option Json,
      (∃ m, MachineInfo.UnmarshalJSON data = Except.ok m) ↔
        checkValid data = true ∧ wellTyped (unwrap data) = true := by
    intro data
    rw [← checkValid_unwrap data]
    constructor
    · rintro ⟨m, hm⟩
      obtain ⟨h₁, h₂, _⟩ := (unmarshalJSON_ok_iff data m).mp hm
      exact ⟨h₁, h₂⟩
    · rintro ⟨h₁, h₂⟩
      exact ⟨_, (unmarshalJSON_ok_iff data _).mpr ⟨h₁, h₂, fromWire_eq _⟩⟩
  refine ⟨hA, fun data e hv h => unmarshalJSON_error_kind data hv e h,
    fun data hv => unmarshalJSON_invalid data hv, ?_, ?_⟩
  · intro l₁ l₂ k f v hdata hdepth ha hc
    have hv : checkValid (some (Json.obj (l₁ ++ (k, v) :: l₂))) = true :=
      (checkValid_some _).mpr hdepth
    have hnot : ¬ ∃ m, MachineInfo.UnmarshalJSON (some (Json.obj (l₁ ++ (k, v) :: l₂)))
        = Except.ok m := by
      rw [hA, unwrap_no_data _ hdata]
      rintro ⟨_, hw⟩
      simp only [wellTyped, List.all_eq_true] at hw
      have := hw (k, v) (by simp)
      simp only [ha] at this
      rw [hc] at this
      cases this
    cases hr : MachineInfo.UnmarshalJSON (some (Json.obj (l₁ ++ (k, v) :: l₂))) with
    | ok m => exact absurd ⟨m, hr⟩ hnot
    | error e =>
      obtain ⟨vk, fd, he⟩ := unmarshalJSON_error_kind _ hv e hr
      exact ⟨vk, fd, by rw [he]⟩
  · intro l₁ l₂ k f ha hf
    have hw : findField [WrapperField.Data] WrapperField.name k = none := by
      apply findField_eq_none
      intro g _
      cases g
      exact fun heq => assigned_fold_ne_data k f ha heq.symm
    have hstep : ∀ d : decodeState wire,
        object wireFields WireField.name wire.store d ((k, Json.null) :: l₂)
          = object wireFields WireField.name wire.store d l₂ := by
      intro d
      rw [object_cons]
      congr 1
      unfold assigned at ha
      simp only [object, List.foldl_cons, List.foldl_nil, ha, store_null _ _ hf]
      exact saveError_none d
    have hdepth : (Json.obj (l₁ ++ (k, Json.null) :: l₂)).depth
        = (Json.obj (l₁ ++ l₂)).depth := by
      rw [depth_obj, depth_obj, depthMembers_insert]
      have : Json.null.depth = 0 := rfl
      rw [this, Nat.zero_max]
    by_cases hB : (Json.obj (l₁ ++ l₂)).depth ≤ maxNestingDepth
    · have hAd : (Json.obj (l₁ ++ (k, Json.null) :: l₂)).depth ≤ maxNestingDepth := by
        rw [hdepth]
        exact hB
      unfold MachineInfo.UnmarshalJSON
      rw [unwrap_obj _ hAd, unwrap_obj _ hB,
        object_insert_skip _ _ _ _ k Json.null l₁ l₂ hw]
      split
      · rfl
      · rw [decodeWire_obj _ hAd, decodeWire_obj _ hB, object_append, object_append, hstep]
    · have hAd : ¬ (Json.obj (l₁ ++ (k, Json.null) :: l₂)).depth ≤ maxNestingDepth := by
        rw [hdepth]
        exact hB
      rw [unmarshalJSON_invalid _ (by simpa [checkValid] using hAd),
        unmarshalJSON_invalid _ (by simpa [checkValid] using hB)]

/-- Instance of the amended C4: `buildId: 5` is not well typed and fails with a type
error; `buildId: null` before `BuildID: "b"` changes nothing. -/
theorem unmarshal_type_mismatch_witness :
    ((∃ m, MachineInfo.UnmarshalJSON (some (Json.obj [("buildId", Json.num "5")]))
        = Except.ok m) ↔
      checkValid (some (Json.obj [("buildId", Json.num "5")])) = true ∧
      wellTyped (unwrap (some (Json.obj [("buildId", Json.num "5")]))) = true) ∧
    checkValid (some (Json.obj [("buildId", Json.num "5")])) = true ∧
    wellTyped (unwrap (some (Json.obj [("buildId", Json.num "5")]))) = false ∧
    (∃ value field, MachineInfo.UnmarshalJSON
        (some (Json.obj ([] ++ ("buildId", Json.num "5") :: [("BuildID", Json.str "b")])))
      = Except.error (Failure.error (JsonError.UnmarshalTypeError value field))) ∧
    assigned "buildId" = some WireField.BuildID1 ∧ WireField.BuildID1.isSlice = false ∧
    MachineInfo.UnmarshalJSON (some (Json.obj
        ([] ++ ("buildId", Json.null) :: [("BuildID", Json.str "b")])))
      = MachineInfo.UnmarshalJSON (some (Json.obj ([] ++ [("BuildID", Json.str "b")]))) :=
  ⟨unmarshal_type_mismatch.1 _, rfl, rfl,
   unmarshal_type_mismatch.2.2.2.1 [] [("BuildID", Json.str "b")] "buildId"
    WireField.BuildID1 (Json.num "5")
    (by
      intro kv hkv
      simp only [List.nil_append, List.mem_cons, List.mem_singleton, List.not_mem_nil,
        or_false] at hkv
      rcases hkv with h | h <;> (rw [h]; decide))
    (by decide) rfl rfl,
   rfl, rfl,
   unmarshal_type_mismatch.2.2.2.2 [] [("BuildID", Json.str "b")] "buildId"
    WireField.BuildID1 rfl rfl⟩

/-- C4, as stated, fails: the JSON object with the members `buildId: 5` and
`BuildID: "b"` is not normalized to the build id `b`; normalization fails
with a type error for the field `buildId`.  And the JSON object with the
single member `x` holding 10000 nested arrays, which has no known field at
all, fails with a syntax error. -/
theorem unmarshal_type_mismatch_counterexample :
    MachineInfo.UnmarshalJSON
        (some (Json.obj [("buildId", Json.num "5"), ("BuildID", Json.str "b")]))
      = Except.error (Failure.error (JsonError.UnmarshalTypeError "number" "buildId")) ∧
    MachineInfo.UnmarshalJSON (some (Json.obj ([] ++ [("x", nested 10000)])))
      = Except.error (Failure.error JsonError.SyntaxError) :=
  ⟨rfl, unmarshalJSON_too_deep [] "x"⟩

theorem variantValue_unassigned (P : List (String × Json)) (f : WireField)
    (h : ∀ kv ∈ P, assigned kv.1 ≠ some f) : variantValue P f = [] := by
  have hfil : P.filter (fun kv => decide (assigned kv.1 = some f) && kv.2.isStr) = [] := by
    rw [List.filter_eq_nil_iff]
    intro kv hkv
    simp [h kv hkv]
  simp [variantValue, hfil]

theorem sliceValue_unassigned (P : List (String × Json)) (f : WireField)
    (h : ∀ kv ∈ P, assigned kv.1 ≠ some f) : sliceValue P f = StringSlice.nil :=
  foldl_slice_unassigned P f StringSlice.nil h

/-- C5, as amended: for every JSON object payload nested at most 10000 deep,
none of whose member names matches `data` and in which every member decoded
into a known field (its key equals the field name exactly or, failing any
exact match, case-insensitively) is well typed, normalization succeeds; every
attribute
into none of whose variant fields a member is decoded is the empty string
(for the graphics card the variants include `gpus`), and the file tree is nil
when no member is decoded into `fileTree`.  The empty object yields, without
error, the entity with thirteen empty strings and a nil file tree. -/
theorem unmarshal_missing_fields :
    (∀ P : List (String × Json),
      (Json.obj P).depth ≤ maxNestingDepth →
      (∀ kv ∈ P, foldName kv.1 ≠ foldName "data") →
      wellTyped (some (Json.obj P)) = true →
      ∃ m, MachineInfo.UnmarshalJSON (some (Json.obj P)) = Except.ok m ∧
        (unassigned P [WireField.BuildID1, WireField.BuildID2, WireField.BuildID3] →
          m.BuildID = []) ∧
        (unassigned P [WireField.IP1, WireField.IP2, WireField.IP3] →
          m.IP = []) ∧
        (unassigned P [WireField.UserName1, WireField.UserName2, WireField.UserName3] →
          m.UserName = []) ∧
        (unassigned P
            [WireField.ComputerName1, WireField.ComputerName2, WireField.ComputerName3] →
          m.ComputerName = []) ∧
        (unassigned P [WireField.OperationSystem1, WireField.OperationSystem2,
            WireField.OperatingSystem1, WireField.OperatingSystem2, WireField.OSVersion] →
          m.OperationSystem = []) ∧
        (unassigned P [WireField.Processor1, WireField.Processor2, WireField.CPUName] →
          m.Processor = []) ∧
        (unassigned P [WireField.InstalledRAM1, WireField.InstalledRAM2, WireField.RAMSize] →
          m.InstalledRAM = []) ∧
        (unassigned P [WireField.GraphicsCard1, WireField.GraphicsCard2, WireField.GPUs] →
          m.GraphicsCard = []) ∧
        (unassigned P [WireField.Country1, WireField.Country2] →
          m.Country = []) ∧
        (unassigned P [WireField.SystemLanguage1, WireField.SystemLanguage2, WireField.Language] →
          m.SystemLanguage = []) ∧
        (unassigned P [WireField.TimeZone1, WireField.TimeZone2, WireField.TimeZone3] →
          m.TimeZone = []) ∧
        (unassigned P [WireField.DisplayResolution1, WireField.DisplayResolution2,
            WireField.ScreenResolution] →
          m.DisplayResolution = []) ∧
        (unassigned P [WireField.FileType1, WireField.FileType2] →
          m.FileType = []) ∧
        (unassigned P [WireField.FileTree] → m.FileTree = none)) ∧
    MachineInfo.UnmarshalJSON (some (Json.obj [])) = Except.ok MachineInfo.zero := by
  refine ⟨?_, rfl⟩
  intro P hdepth hdata htyped
  have hu := unwrap_no_data P hdata
  have hv : checkValid (some (Json.obj P)) = true := (checkValid_some _).mpr hdepth
  refine ⟨_, (unmarshalJSON_ok_iff _ _).mpr
    ⟨by rw [hu]; exact hv, by rw [hu]; exact htyped, fromWire_eq _⟩, ?_⟩
  rw [hu]
  have e : ∀ f, f.isSlice = false → (∀ kv ∈ P, assigned kv.1 ≠ some f) →
      (decodedWire (some (Json.obj P))).getString f = [] := by
    intro f hf hun
    rw [decodedWire_getString _ f hf hv]
    exact variantValue_unassigned P f hun
  have un : ∀ (fs : List WireField) (f : WireField), unassigned P fs → f ∈ fs →
      ∀ kv ∈ P, assigned kv.1 ≠ some f := fun fs f h hf kv hkv => h kv hkv f hf
  refine ⟨?_, ?_, ?_, ?_, ?_, ?_, ?_, ?_, ?_, ?_, ?_, ?_, ?_, ?_⟩
  all_goals intro h
  case refine_8 =>
    have h1 := e WireField.GraphicsCard1 rfl (un _ _ h (by simp))
    have h2 := e WireField.GraphicsCard2 rfl (un _ _ h (by simp))
    have h3 : (decodedWire (some (Json.obj P))).GPUs = StringSlice.nil := by
      rw [decodedWire_GPUs _ hv]
      exact sliceValue_unassigned P _ (un _ _ h (by simp))
    simp only [wire.getString] at h1 h2
    simp [h1, h2, h3, pick, StringSlice.nil]
  case refine_14 =>
    have h3 : (decodedWire (some (Json.obj P))).FileTree = StringSlice.nil := by
      rw [decodedWire_FileTree _ hv]
      exact sliceValue_unassigned P _ (un _ _ h (by simp))
    simp [h3, StringSlice.nil, StringSlice.toOption]
  case refine_1 =>
    have h1 := e WireField.BuildID1 rfl (un _ _ h (by simp))
    have h2 := e WireField.BuildID2 rfl (un _ _ h (by simp))
    have h3 := e WireField.BuildID3 rfl (un _ _ h (by simp))
    simp only [wire.getString] at h1 h2 h3
    simp [h1, h2, h3, pick]
  case refine_2 =>
    have h1 := e WireField.IP1 rfl (un _ _ h (by simp))
    have h2 := e WireField.IP2 rfl (un _ _ h (by simp))
    have h3 := e WireField.IP3 rfl (un _ _ h (by simp))
    simp only [wire.getString] at h1 h2 h3
    simp [h1, h2, h3, pick]
  case refine_3 =>
    have h1 := e WireField.UserName1 rfl (un _ _ h (by simp))
    have h2 := e WireField.UserName2 rfl (un _ _ h (by simp))
    have h3 := e WireField.UserName3 rfl (un _ _ h (by simp))
    simp only [wire.getString] at h1 h2 h3
    simp [h1, h2, h3, pick]
  case refine_4 =>
    have h1 := e WireField.ComputerName1 rfl (un _ _ h (by simp))
    have h2 := e WireField.ComputerName2 rfl (un _ _ h (by simp))
    have h3 := e WireField.ComputerName3 rfl (un _ _ h (by simp))
    simp only [wire.getString] at h1 h2 h3
    simp [h1, h2, h3, pick]
  case refine_5 =>
    have h1 := e WireField.OperationSystem1 rfl (un _ _ h (by simp))
    have h2 := e WireField.OperationSystem2 rfl (un _ _ h (by simp))
    have h3 := e WireField.OperatingSystem1 rfl (un _ _ h (by simp))
    have h4 := e WireField.OperatingSystem2 rfl (un _ _ h (by simp))
    have h5 := e WireField.OSVersion rfl (un _ _ h (by simp))
    simp only [wire.getString] at h1 h2 h3 h4 h5
    simp [h1, h2, h3, h4, h5, pick]
  case refine_6 =>
    have h1 := e WireField.Processor1 rfl (un _ _ h (by simp))
    have h2 := e WireField.Processor2 rfl (un _ _ h (by simp))
    have h3 := e WireField.CPUName rfl (un _ _ h (by simp))
    simp only [wire.getString] at h1 h2 h3
    simp [h1, h2, h3, pick]
  case refine_7 =>
    have h1 := e WireField.InstalledRAM1 rfl (un _ _ h (by simp))
    have h2 := e WireField.InstalledRAM2 rfl (un _ _ h (by simp))
    have h3 := e WireField.RAMSize rfl (un _ _ h (by simp))
    simp only [wire.getString] at h1 h2 h3
    simp [h1, h2, h3, pick]
  case refine_9 =>
    have h1 := e WireField.Country1 rfl (un _ _ h (by simp))
    have h2 := e WireField.Country2 rfl (un _ _ h (by simp))
    simp only [wire.getString] at h1 h2
    simp [h1, h2, pick]
  case refine_10 =>
    have h1 := e WireField.SystemLanguage1 rfl (un _ _ h (by simp))
    have h2 := e WireField.SystemLanguage2 rfl (un _ _ h (by simp))
    have h3 := e WireField.Language rfl (un _ _ h (by simp))
    simp only [wire.getString] at h1 h2 h3
    simp [h1, h2, h3, pick]
  case refine_11 =>
    have h1 := e WireField.TimeZone1 rfl (un _ _ h (by simp))
    have h2 := e WireField.TimeZone2 rfl (un _ _ h (by simp))
    have h3 := e WireField.TimeZone3 rfl (un _ _ h (by simp))
    simp only [wire.getString] at h1 h2 h3
    simp [h1, h2, h3, pick]
  case refine_12 =>
    have h1 := e WireField.DisplayResolution1 rfl (un _ _ h (by simp))
    have h2 := e WireField.DisplayResolution2 rfl (un _ _ h (by simp))
    have h3 := e WireField.ScreenResolution rfl (un _ _ h (by simp))
    simp only [wire.getString] at h1 h2 h3
    simp [h1, h2, h3, pick]
  case refine_13 =>
    have h1 := e WireField.FileType1 rfl (un _ _ h (by simp))
    have h2 := e WireField.FileType2 rfl (un _ _ h (by simp))
    simp only [wire.getString] at h1 h2
    simp [h1, h2, pick]

/-- Instance of the amended C5: a payload with only `ip` decodes, and its build id is
empty. -/
theorem unmarshal_missing_fields_witness :
    (Json.obj [("ip", Json.str "10.0.0.1")]).depth ≤ maxNestingDepth ∧
    (∀ kv ∈ [("ip", Json.str "10.0.0.1")], foldName kv.1 ≠ foldName "data") ∧
    wellTyped (some (Json.obj [("ip", Json.str "10.0.0.1")])) = true ∧
    ∃ m, MachineInfo.UnmarshalJSON (some (Json.obj [("ip", Json.str "10.0.0.1")]))
        = Except.ok m ∧
      (unassigned [("ip", Json.str "10.0.0.1")]
          [WireField.BuildID1, WireField.BuildID2, WireField.BuildID3] → m.BuildID = []) :=
  ⟨by decide, by decide, rfl,
    match unmarshal_missing_fields.1 [("ip", Json.str "10.0.0.1")] (by decide) (by decide)
      rfl with
    | ⟨m, hm, hb, _⟩ => ⟨m, hm, hb⟩⟩

/-- C5, as stated, fails.  The object with the single member `BUILDID: 5` has
none of the known field names, yet normalization fails; the object with the
single member `BUILDID: "z"` has none of the build id variants, yet the build
id is `z`; the object with the single member `data: 5` has none of the known
field names either, yet normalization fails; and the object with a
well-typed `buildId` and an unknown member holding 10000 nested arrays fails
with a syntax error. -/
theorem unmarshal_missing_fields_counterexample :
    ((∀ kv ∈ [("BUILDID", Json.num "5")], kv.1 ∉ wireFields.map WireField.name) ∧
      MachineInfo.UnmarshalJSON (some (Json.obj [("BUILDID", Json.num "5")]))
        = Except.error (Failure.error (JsonError.UnmarshalTypeError "number" "buildId"))) ∧
    ((∀ kv ∈ [("BUILDID", Json.str "z")], kv.1 ∉ wireFields.map WireField.name) ∧
      MachineInfo.UnmarshalJSON (some (Json.obj [("BUILDID", Json.str "z")]))
        = Except.ok { MachineInfo.zero with BuildID := GoString.lit "z" }) ∧
    ((∀ kv ∈ [("data", Json.num "5")], kv.1 ∉ wireFields.map WireField.name) ∧
      MachineInfo.UnmarshalJSON (some (Json.obj [("data", Json.num "5")]))
        = Except.error (Failure.error (JsonError.UnmarshalTypeError "number" ""))) ∧
    (wellTyped (some (Json.obj ([("buildId", Json.str "a")] ++ [("x", nested 10000)]))) = true ∧
      MachineInfo.UnmarshalJSON
          (some (Json.obj ([("buildId", Json.str "a")] ++ [("x", nested 10000)])))
        = Except.error (Failure.error JsonError.SyntaxError)) :=
  ⟨⟨by decide, rfl⟩, ⟨by decide, rfl⟩, ⟨by decide, rfl⟩,
   ⟨rfl, unmarshalJSON_too_deep _ "x"⟩⟩

/-! ## Transport: error mapping and the Authorization header -/

theorem apiError_message_error (resp : Response) (x : String) (t : Bool)
    (h : resp.Body = Body.value (Json.obj [("error", Json.str x)]) t) :
    (apiError resp).Message = GoString.lit x := by
  unfold apiError
  rw [h]
  rfl

theorem apiError_message_empty (resp : Response)
    (h : resp.Body = Body.empty ∨ resp.Body = Body.malformed ∨
      ∃ v t, resp.Body = Body.value v t ∧ maxNestingDepth < v.depth) :
    (apiError resp).Message = [] := by
  unfold apiError
  rcases h with h | h | ⟨v, t, h, hd⟩
  · rw [h]
    rfl
  · rw [h]
    rfl
  · rw [h]
    simp only [Decode]
    rw [Unmarshal_invalid _ _ _ (some v) _ (by
      simp only [checkValid, decide_eq_false_iff_not]
      omega)]

theorem doJSON_eq {α υ : Type} (c : Client υ) (req : Request υ) (resp : Response)
    (v : Option (Option Json → Except Failure α)) (h : c.httpClient req = some resp) :
    c.doJSON req v =
      if resp.StatusCode < 200 ∨ resp.StatusCode ≥ 300 then
        Except.error (Error.api (apiError resp))
      else
        match v with
        | none => Except.ok none
        | some unmarshal =>
          match decodeInto unmarshal resp.Body with
          | Except.error e => Except.error (Error.decodeResponse e)
          | Except.ok a => Except.ok (some a) := by
  unfold Client.doJSON
  rw [h]

theorem doRaw_eq {υ : Type} (c : Client υ) (req : Request υ) (resp : Response)
    (h : c.httpClient req = some resp) :
    c.doRaw req =
      if resp.StatusCode < 200 ∨ resp.StatusCode ≥ 300 then
        Except.error (Error.api (apiError resp))
      else
        Except.ok (resp.Body, resp.Header.Get "Content-Type",
          (if resp.Header.Get "Content-Length" ≠ [] then
            match ParseInt (resp.Header.Get "Content-Length") with
            | Except.ok n => n
            | Except.error _ => 0
          else 0),
          resp.Header.Get "Content-Disposition") := by
  unfold Client.doRaw
  rw [h]

/-- C6, as amended: for every response with status code `s` and every body,
`doJSON` and `doRaw` return an `APIError` exactly when `s` is outside
200..299; its `StatusCode` is `s`; its `Message` is `x` when the body starts
with the JSON object with the single member `error: x`, `x` a string, whatever
bytes follow that object, and is empty when the body is empty or does not
start with a complete JSON value nested at most 10000 deep. -/
theorem api_error_on_non_2xx {α υ : Type} (c : Client υ) (req : Request υ) (resp : Response)
    (v : Option (Option Json → Except Failure α)) (h : c.httpClient req = some resp) :
    ((∃ e, c.doJSON req v = Except.error (Error.api e)) ↔
        ¬ (200 ≤ resp.StatusCode ∧ resp.StatusCode ≤ 299)) ∧
    ((∃ e, c.doRaw req = Except.error (Error.api e)) ↔
        ¬ (200 ≤ resp.StatusCode ∧ resp.StatusCode ≤ 299)) ∧
    (∀ e, (c.doJSON req v = Except.error (Error.api e) ∨
          c.doRaw req = Except.error (Error.api e)) →
      e.StatusCode = resp.StatusCode ∧
      (∀ x t, resp.Body = Body.value (Json.obj [("error", Json.str x)]) t →
        e.Message = GoString.lit x) ∧
      (resp.Body = Body.empty ∨ resp.Body = Body.malformed ∨
        (∃ j t, resp.Body = Body.value j t ∧ maxNestingDepth < j.depth) →
        e.Message = [])) := by
  rw [doJSON_eq c req resp v h, doRaw_eq c req resp h]
  by_cases hs : resp.StatusCode < 200 ∨ resp.StatusCode ≥ 300
  · have hs' : ¬ (200 ≤ resp.StatusCode ∧ resp.StatusCode ≤ 299) := by omega
    simp only [if_pos hs, Except.error.injEq, Error.api.injEq, exists_eq', true_iff, or_self]
    refine ⟨hs', hs', ?_⟩
    intro e he
    subst he
    exact ⟨rfl, fun x t hx => apiError_message_error resp x t hx,
      fun hb => apiError_message_empty resp hb⟩
  · have hs' : 200 ≤ resp.StatusCode ∧ resp.StatusCode ≤ 299 := by omega
    simp only [if_neg hs]
    refine ⟨?_, ?_, ?_⟩
    · constructor
      · rintro ⟨e, he⟩
        cases v with
        | none => cases he
        | some u =>
          simp only at he
          split at he <;> cases he
      · intro hn
        exact absurd hs' hn
    · constructor
      · rintro ⟨e, he⟩
        cases he
      · intro hn
        exact absurd hs' hn
    · intro e he
      rcases he with he | he
      · cases v with
        | none => cases he
        | some u =>
          simp only at he
          split at he <;> cases he
      · cases he

/-- Instance of the amended C6: a 404 response with the body `error: "not found"`. -/
theorem api_error_on_non_2xx_witness :
    (answering notFound).httpClient getRequest = some notFound ∧
    (answering notFound).doJSON getRequest (none : Option (Option Json → Except Failure Unit))
      = Except.error (Error.api { StatusCode := 404, Message := GoString.lit "not found" }) ∧
    ((∃ e, (answering notFound).doJSON getRequest
          (none : Option (Option Json → Except Failure Unit)) = Except.error (Error.api e)) ↔
      ¬ (200 ≤ notFound.StatusCode ∧ notFound.StatusCode ≤ 299)) :=
  ⟨rfl, rfl, (api_error_on_non_2xx (answering notFound) getRequest notFound none rfl).1⟩

/-- C6, as stated, fails: a 502 response whose body is the object
`error: "boom"` followed by other bytes is not parsable as JSON as a whole,
yet `doJSON` and `doRaw` decode the leading object and return the message
`boom`, not the empty string. -/
theorem api_error_on_non_2xx_counterexample :
    badGateway.Body.isJSON = false ∧
    (answering badGateway).doJSON getRequest (none : Option (Option Json → Except Failure Unit))
      = Except.error (Error.api { StatusCode := 502, Message := GoString.lit "boom" }) ∧
    (answering badGateway).doRaw getRequest
      = Except.error (Error.api { StatusCode := 502, Message := GoString.lit "boom" }) ∧
    GoString.lit "boom" ≠ [] :=
  ⟨rfl, rfl, rfl, by decide⟩

/-- C7: for every client and every request `newRequest` builds successfully,
if the API key is non-empty the Authorization header is exactly `Bearer `
followed by the key, and if the API key is empty the request has no
Authorization header. -/
theorem newRequest_authorization {β υ : Type} (lib : Library β υ) (c : Client υ)
    (method path : GoString) (q : Header) (body : Option β) (req : Request υ)
    (h : c.newRequest lib method path q body = Except.ok req) :
    (c.apiKey ≠ [] →
      req.Header.lookup "Authorization" = some [GoString.lit "Bearer " ++ c.apiKey] ∧
      req.Header.Get "Authorization" = GoString.lit "Bearer " ++ c.apiKey) ∧
    (c.apiKey = [] → req.Header.lookup "Authorization" = none) := by
  unfold Client.newRequest at h
  cases body with
  | none =>
    simp only at h
    cases hn : lib.NewRequestWithContext method
        (if q.length > 0 then c.baseURL ++ path ++ GoString.lit "?" ++ lib.Encode q
          else c.baseURL ++ path) with
    | none => rw [hn] at h; cases h
    | some url =>
      rw [hn] at h
      have hreq := (Except.ok.inj h).symm
      subst hreq
      constructor
      · intro hk
        simp [hk, Header.Set, Header.Get, List.lookup]
      · intro hk
        simp [hk, List.lookup]
  | some b =>
    simp only at h
    cases hm : lib.Marshal b with
    | none => rw [hm] at h; cases h
    | some bytes =>
      rw [hm] at h
      simp only at h
      cases hn : lib.NewRequestWithContext method
          (if q.length > 0 then c.baseURL ++ path ++ GoString.lit "?" ++ lib.Encode q
            else c.baseURL ++ path) with
      | none => rw [hn] at h; cases h
      | some url =>
        rw [hn] at h
        have hreq := (Except.ok.inj h).symm
        subst hreq
        constructor
        · intro hk
          simp [hk, Header.Set, Header.Get, List.lookup]
        · intro hk
          simp [hk, Header.Set, List.lookup]

/-- Instance of C7: a client with the API key `k3y`. -/
theorem newRequest_authorization_witness :
    ({ answering notFound with apiKey := GoString.lit "k3y" } : Client GoString).newRequest
        plainLibrary (GoString.lit "GET") (GoString.lit "/health") [] (none : Option Unit)
      = Except.ok { Method := GoString.lit "GET",
                    URL := GoString.lit "https://api.keysco.re/health",
                    Header := [("Authorization", [GoString.lit "Bearer k3y"])], Body := none } ∧
    ((GoString.lit "k3y" ≠ [] →
      List.lookup "Authorization" [("Authorization", [GoString.lit "Bearer k3y"])]
        = some [GoString.lit "Bearer " ++ GoString.lit "k3y"] ∧
      Header.Get [("Authorization", [GoString.lit "Bearer k3y"])] "Authorization"
        = GoString.lit "Bearer " ++ GoString.lit "k3y") ∧
    (GoString.lit "k3y" = [] →
      List.lookup "Authorization" [("Authorization", [GoString.lit "Bearer k3y"])] = none)) :=
  ⟨rfl, newRequest_authorization plainLibrary
    ({ answering notFound with apiKey := GoString.lit "k3y" } : Client GoString)
    (GoString.lit "GET") (GoString.lit "/health") [] (none : Option Unit) _ rfl⟩

/-! ## strconv.ParseInt accepts exactly the numerals of 64-bit integers -/

theorem digitValue_digitChar (d : Nat) (h : d < 10) : digitValue (digitChar d) = some d := by
  interval_cases d <;> rfl

theorem digitValue_some (u : GoUnit) (d : Nat) (h : digitValue u = some d) :
    u = digitChar d ∧ d < 10 := by
  cases u with
  | bad b => simp [digitValue] at h
  | rune c =>
    simp only [digitValue] at h
    split at h
    · rename_i hc
      have hd := (Option.some.inj h).symm
      have h48 : '0'.toNat = 48 := rfl
      have h57 : '9'.toNat = 57 := rfl
      rw [h48, h57] at hc
      rw [h48] at hd
      refine ⟨?_, by omega⟩
      unfold digitChar
      rw [h48, hd, Nat.add_sub_cancel' hc.1, Char.ofNat_toNat]
    · cases h

theorem foldl_digits_ge (ds : List Nat) (acc : Nat) :
    acc ≤ ds.foldl (fun a d => a * 10 + d) acc := by
  induction ds generalizing acc with
  | nil => exact Nat.le_refl _
  | cons d ds ih =>
    rw [List.foldl_cons]
    exact Nat.le_trans (by omega) (ih (acc * 10 + d))

theorem two_pow_64 : (2 : Nat) ^ 64 = 18446744073709551616 := by norm_num

theorem two_pow_63 : (2 : Nat) ^ 63 = 9223372036854775808 := by norm_num

theorem parseUintLoop_digits (ds : List Nat) (acc : Nat) (hd : ∀ d ∈ ds, d < 10)
    (h : ds.foldl (fun a d => a * 10 + d) acc < 2 ^ 64) :
    parseUintLoop (ds.map digitChar) acc = Except.ok (ds.foldl (fun a d => a * 10 + d) acc) := by
  induction ds generalizing acc with
  | nil => rfl
  | cons d ds ih =>
    have hd10 : d < 10 := hd d (List.mem_cons_self _ _)
    rw [List.foldl_cons] at h ⊢
    have hge := foldl_digits_ge ds (acc * 10 + d)
    have hlt : acc * 10 + d < 2 ^ 64 := Nat.lt_of_le_of_lt hge h
    rw [List.map_cons, parseUintLoop, digitValue_digitChar d hd10]
    rw [two_pow_64] at hlt
    have h1 : ¬ acc ≥ (2 ^ 64 - 1) / 10 + 1 := by
      rw [two_pow_64]
      omega
    have h2 : (acc * 10) % 2 ^ 64 = acc * 10 := by
      rw [two_pow_64]
      omega
    have h3 : (acc * 10 + d) % 2 ^ 64 = acc * 10 + d := by
      rw [two_pow_64]
      omega
    simp only [h1, if_false, h2, h3]
    have h4 : ¬ (acc * 10 + d < acc * 10 ∨ acc * 10 + d > 2 ^ 64 - 1) := by
      rw [two_pow_64]
      omega
    rw [if_neg h4]
    exact ih (acc * 10 + d) (fun x hx => hd x (List.mem_cons_of_mem _ hx)) h

theorem parseUintLoop_ok (s : GoString) (acc n : Nat) (hacc : acc < 2 ^ 64)
    (h : parseUintLoop s acc = Except.ok n) :
    ∃ ds : List Nat, s = ds.map digitChar ∧ (∀ d ∈ ds, d < 10) ∧
      n = ds.foldl (fun a d => a * 10 + d) acc ∧ n < 2 ^ 64 := by
  induction s generalizing acc with
  | nil =>
    simp only [parseUintLoop] at h
    have hn := (Except.ok.inj h).symm
    exact ⟨[], rfl, by simp, by simpa using hn, by rw [hn]; exact hacc⟩
  | cons u s ih =>
    rw [parseUintLoop] at h
    cases hdv : digitValue u with
    | none => rw [hdv] at h; cases h
    | some d =>
      rw [hdv] at h
      simp only at h
      obtain ⟨hu, hd10⟩ := digitValue_some u d hdv
      split at h
      · cases h
      · rename_i hcut
        split at h
        · cases h
        · rename_i hov
          rw [two_pow_64] at hcut hov
          have h2 : (acc * 10) % 2 ^ 64 = acc * 10 := by
            rw [two_pow_64]
            omega
          rw [h2] at h
          have h3 : (acc * 10 + d) % 2 ^ 64 = acc * 10 + d := by
            rw [two_pow_64]
            omega
          rw [h3] at h
          have hlt : acc * 10 + d < 2 ^ 64 := by
            rw [two_pow_64]
            omega
          obtain ⟨ds, hs, hds, hn, hn64⟩ := ih (acc * 10 + d) hlt h
          refine ⟨d :: ds, ?_, ?_, ?_, hn64⟩
          · rw [List.map_cons, hu, hs]
          · intro x hx
            rcases List.mem_cons.mp hx with rfl | hx
            · exact hd10
            · exact hds x hx
          · rw [List.foldl_cons]
            exact hn

theorem digitChar_ne_sign (d : Nat) (h : d < 10) :
    digitChar d ≠ GoUnit.rune '+' ∧ digitChar d ≠ GoUnit.rune '-' := by
  interval_cases d <;> decide

theorem ParseUint_ok_iff (s : GoString) (un : Nat) :
    ParseUint s = Except.ok un ↔
      ∃ ds : List Nat, ds ≠ [] ∧ (∀ d ∈ ds, d < 10) ∧ s = ds.map digitChar ∧
        un = digitsValue ds ∧ un < 2 ^ 64 := by
  constructor
  · intro h
    unfold ParseUint at h
    by_cases hs : s = []
    · rw [if_pos hs] at h
      cases h
    · rw [if_neg hs] at h
      obtain ⟨ds, hds, hd, hn, hlt⟩ := parseUintLoop_ok s 0 un (by norm_num) h
      refine ⟨ds, ?_, hd, hds, hn, hlt⟩
      intro hnil
      rw [hnil] at hds
      exact hs hds
  · rintro ⟨ds, hne, hd, hs, hn, hlt⟩
    unfold ParseUint
    have hs' : s ≠ [] := by
      rw [hs]
      intro hc
      exact hne (List.map_eq_nil_iff.mp hc)
    rw [if_neg hs', hs, hn]
    rw [hn] at hlt
    exact parseUintLoop_digits ds 0 hd hlt

theorem parseIntRange_ok_iff (neg : Bool) (res : Except NumError Nat) (n : Int)
    (hres : ∀ un, res = Except.ok un → un < 2 ^ 64) :
    parseIntRange neg res = Except.ok n ↔
      ∃ un : Nat, res = Except.ok un ∧
        ((neg = false ∧ un < 2 ^ 63 ∧ n = (un : Int)) ∨
         (neg = true ∧ un ≤ 2 ^ 63 ∧ n = -(un : Int))) := by
  have e64 : (2 : Int) ^ 64 = 18446744073709551616 := by norm_num
  have e63 : (2 : Int) ^ 63 = 9223372036854775808 := by norm_num
  cases res with
  | error e =>
    cases e with
    | ErrSyntax => simp [parseIntRange]
    | ErrRange =>
      cases neg <;> simp [parseIntRange]
  | ok un =>
    have hun := hres un rfl
    rw [two_pow_64] at hun
    simp only [parseIntRange, Except.ok.injEq, exists_eq_left', two_pow_63, int64, e64, e63]
    cases neg
    · simp only [true_and, Bool.false_eq_true, false_and, if_false, or_false]
      by_cases h : un ≥ 9223372036854775808
      · simp only [h, if_true]
        constructor
        · intro hc; cases hc
        · rintro ⟨h1, _⟩; omega
      · simp only [h, if_false, Except.ok.injEq]
        constructor
        · intro hn
          refine ⟨by omega, ?_⟩
          omega
        · rintro ⟨_, hn⟩
          omega
    · simp only [Bool.true_eq_false, false_and, if_false, true_and, if_true, false_or]
      by_cases h : un > 9223372036854775808
      · simp only [h, if_true]
        constructor
        · intro hc; cases hc
        · rintro ⟨h1, _⟩; omega
      · simp only [h, if_false, Except.ok.injEq]
        constructor
        · intro hn
          refine ⟨by omega, ?_⟩
          omega
        · rintro ⟨_, hn⟩
          omega

theorem ParseUint_lt (s : GoString) (un : Nat) (h : ParseUint s = Except.ok un) :
    un < 2 ^ 64 := by
  obtain ⟨_, _, _, _, _, hlt⟩ := (ParseUint_ok_iff s un).mp h
  exact hlt

theorem ParseInt_eq (s : GoString) (hs : s ≠ []) :
    ParseInt s =
      if s.head? = some (GoUnit.rune '+') then parseIntRange false (ParseUint s.tail)
      else if s.head? = some (GoUnit.rune '-') then parseIntRange true (ParseUint s.tail)
      else parseIntRange false (ParseUint s) := by
  unfold ParseInt
  rw [if_neg hs]
  by_cases h1 : s.head? = some (GoUnit.rune '+')
  · simp only [h1, if_true]
  · by_cases h2 : s.head? = some (GoUnit.rune '-')
    · rw [if_neg h1, if_neg h1, if_pos h2, if_pos h2]
    · rw [if_neg h1, if_neg h1, if_neg h2, if_neg h2]

theorem head_map_digitChar (ds : List Nat) (hne : ds ≠ []) (hd : ∀ d ∈ ds, d < 10) :
    (ds.map digitChar).head? ≠ some (GoUnit.rune '+') ∧
    (ds.map digitChar).head? ≠ some (GoUnit.rune '-') := by
  cases ds with
  | nil => exact absurd rfl hne
  | cons d ds =>
    have h := digitChar_ne_sign d (hd d (List.mem_cons_self _ _))
    simp only [List.map_cons, List.head?_cons, ne_eq, Option.some.injEq]
    exact h

theorem ParseInt_ok_iff (s : GoString) (n : Int) :
    ParseInt s = Except.ok n ↔ isInt64Text s n := by
  have e63 : (2 : Int) ^ 63 = 9223372036854775808 := by norm_num
  constructor
  · intro h
    by_cases hs : s = []
    · unfold ParseInt at h
      rw [if_pos hs] at h
      cases h
    · rw [ParseInt_eq s hs] at h
      cases s with
      | nil => exact absurd rfl hs
      | cons u t =>
        simp only [List.head?_cons, Option.some.injEq, List.tail_cons] at h
        by_cases h1 : u = GoUnit.rune '+'
        · rw [if_pos h1] at h
          obtain ⟨un, hun, hcase⟩ :=
            (parseIntRange_ok_iff false _ n (fun un => ParseUint_lt t un)).mp h
          obtain ⟨ds, hne, hd, ht, hv, _⟩ := (ParseUint_ok_iff t un).mp hun
          rcases hcase with ⟨_, hlt, hn⟩ | ⟨hc, _⟩
          · rw [two_pow_63] at hlt
            refine ⟨by omega, by omega, ds, hne, hd, Or.inr (Or.inl ⟨?_, ?_⟩)⟩
            · rw [h1, ht]
            · rw [hn, hv]
          · cases hc
        · rw [if_neg h1] at h
          by_cases h2 : u = GoUnit.rune '-'
          · rw [if_pos h2] at h
            obtain ⟨un, hun, hcase⟩ :=
              (parseIntRange_ok_iff true _ n (fun un => ParseUint_lt t un)).mp h
            obtain ⟨ds, hne, hd, ht, hv, _⟩ := (ParseUint_ok_iff t un).mp hun
            rcases hcase with ⟨hc, _⟩ | ⟨_, hle, hn⟩
            · cases hc
            · rw [two_pow_63] at hle
              refine ⟨by omega, by omega, ds, hne, hd, Or.inr (Or.inr ⟨?_, ?_⟩)⟩
              · rw [h2, ht]
              · rw [hn, hv]
          · rw [if_neg h2] at h
            obtain ⟨un, hun, hcase⟩ :=
              (parseIntRange_ok_iff false _ n (fun un => ParseUint_lt (u :: t) un)).mp h
            obtain ⟨ds, hne, hd, ht, hv, _⟩ := (ParseUint_ok_iff (u :: t) un).mp hun
            rcases hcase with ⟨_, hlt, hn⟩ | ⟨hc, _⟩
            · rw [two_pow_63] at hlt
              refine ⟨by omega, by omega, ds, hne, hd, Or.inl ⟨ht, ?_⟩⟩
              rw [hn, hv]
            · cases hc
  · rintro ⟨hlo, hhi, ds, hne, hd, hcase⟩
    rw [e63] at hlo hhi
    have hmap : ds.map digitChar ≠ [] := fun hc => hne (List.map_eq_nil_iff.mp hc)
    rcases hcase with ⟨hs, hn⟩ | ⟨hs, hn⟩ | ⟨hs, hn⟩
    · have hhead := head_map_digitChar ds hne hd
      rw [ParseInt_eq s (by rw [hs]; exact hmap), hs, if_neg hhead.1, if_neg hhead.2]
      have hU : ParseUint (ds.map digitChar) = Except.ok (digitsValue ds) :=
        (ParseUint_ok_iff _ _).mpr ⟨ds, hne, hd, rfl, rfl, by rw [two_pow_64]; omega⟩
      rw [hU]
      refine (parseIntRange_ok_iff false _ n ?_).mpr
        ⟨digitsValue ds, rfl, Or.inl ⟨rfl, by rw [two_pow_63]; omega, hn⟩⟩
      intro un hun
      cases hun
      rw [two_pow_64]
      omega
    · rw [ParseInt_eq s (by rw [hs]; exact List.cons_ne_nil _ _), hs]
      simp only [List.head?_cons, if_true, List.tail_cons]
      have hU : ParseUint (ds.map digitChar) = Except.ok (digitsValue ds) :=
        (ParseUint_ok_iff _ _).mpr ⟨ds, hne, hd, rfl, rfl, by rw [two_pow_64]; omega⟩
      rw [hU]
      refine (parseIntRange_ok_iff false _ n ?_).mpr
        ⟨digitsValue ds, rfl, Or.inl ⟨rfl, by rw [two_pow_63]; omega, hn⟩⟩
      intro un hun
      cases hun
      rw [two_pow_64]
      omega
    · rw [ParseInt_eq s (by rw [hs]; exact List.cons_ne_nil _ _), hs]
      have hpm : ¬ (some (GoUnit.rune '-') = some (GoUnit.rune '+')) := by decide
      simp only [List.head?_cons, hpm, if_false, if_true, List.tail_cons]
      have hU : ParseUint (ds.map digitChar) = Except.ok (digitsValue ds) :=
        (ParseUint_ok_iff _ _).mpr ⟨ds, hne, hd, rfl, rfl, by rw [two_pow_64]; omega⟩
      rw [hU]
      refine (parseIntRange_ok_iff true _ n ?_).mpr
        ⟨digitsValue ds, rfl, Or.inr ⟨rfl, by rw [two_pow_63]; omega, hn⟩⟩
      intro un hun
      cases hun
      rw [two_pow_64]
      omega

theorem digitsValue_append (l : List Nat) (d : Nat) :
    digitsValue (l ++ [d]) = digitsValue l * 10 + d := by
  simp [digitsValue, List.foldl_append]

theorem decimalDigits_spec (fuel m : Nat) (h : m ≤ fuel) :
    decimalDigits fuel m ≠ [] ∧ (∀ d ∈ decimalDigits fuel m, d < 10) ∧
      digitsValue (decimalDigits fuel m) = m := by
  induction fuel generalizing m with
  | zero =>
    have hm : m = 0 := by omega
    subst hm
    simp [decimalDigits, digitsValue]
  | succ fuel ih =>
    unfold decimalDigits
    by_cases h10 : m < 10
    · rw [if_pos h10]
      simp [digitsValue, h10]
    · rw [if_neg h10]
      obtain ⟨_, hd, hv⟩ := ih (m / 10) (by omega)
      refine ⟨by simp, ?_, ?_⟩
      · intro d hdm
        rcases List.mem_append.mp hdm with hdm | hdm
        · exact hd d hdm
        · have : d = m % 10 := by simpa using hdm
          omega
      · rw [digitsValue_append, hv]
        omega

theorem decimal_isInt64Text (n : Int) (hlo : -2 ^ 63 ≤ n) (hhi : n < 2 ^ 63) :
    isInt64Text (decimal n) n := by
  obtain ⟨hne, hd, hv⟩ := decimalDigits_spec n.natAbs n.natAbs (Nat.le_refl _)
  refine ⟨hlo, hhi, decimalDigits n.natAbs n.natAbs, hne, hd, ?_⟩
  unfold decimal
  by_cases hneg : n < 0
  · rw [if_pos hneg]
    refine Or.inr (Or.inr ⟨rfl, ?_⟩)
    rw [hv]
    omega
  · rw [if_neg hneg]
    refine Or.inl ⟨rfl, ?_⟩
    rw [hv]
    omega

/-! ## Transport: download metadata -/

theorem Header.Get_of_lookup_none (h : Header) (key : String) (hl : h.lookup key = none) :
    h.Get key = [] := by
  unfold Header.Get
  rw [hl]

/-- C8: for every 2xx response handed to `doRaw`, the content type and the
content disposition returned are the header values, and the content length
returned is `n` whenever the Content-Length header is a base-10 numeral of a
64-bit signed integer `n`, in particular its base-10 text (`1024` gives
1024), and is 0 when the header is absent, empty, or no such numeral.
`Download` surfaces the three values unchanged. -/
theorem doRaw_metadata {υ : Type} (c : Client υ) (req : Request υ) (resp : Response)
    (h : c.httpClient req = some resp)
    (hs : 200 ≤ resp.StatusCode ∧ resp.StatusCode ≤ 299) :
    ∃ cl : Int,
      c.doRaw req = Except.ok (resp.Body, resp.Header.Get "Content-Type", cl,
        resp.Header.Get "Content-Disposition") ∧
      (∀ n, isInt64Text (resp.Header.Get "Content-Length") n → cl = n) ∧
      (∀ n : Int, -2 ^ 63 ≤ n → n < 2 ^ 63 →
        resp.Header.Get "Content-Length" = decimal n → cl = n) ∧
      (resp.Header.lookup "Content-Length" = none → cl = 0) ∧
      (resp.Header.Get "Content-Length" = [] → cl = 0) ∧
      ((∀ n, ¬ isInt64Text (resp.Header.Get "Content-Length") n) → cl = 0) ∧
      (∀ (β : Type) (lib : Library β υ) (uuid filePath : GoString),
        c.newRequest lib (GoString.lit "GET") (GoString.lit "/download")
            (if filePath ≠ [] then Header.Set [("uuid", [uuid])] "file" filePath
              else [("uuid", [uuid])]) none = Except.ok req →
        ∃ r, c.Download lib uuid filePath = Except.ok r ∧
          r.ContentType = resp.Header.Get "Content-Type" ∧
          r.ContentLength = cl ∧
          r.ContentDisposition = resp.Header.Get "Content-Disposition") := by
  have hs' : ¬ (resp.StatusCode < 200 ∨ resp.StatusCode ≥ 300) := by omega
  have hraw := doRaw_eq c req resp h
  rw [if_neg hs'] at hraw
  refine ⟨_, hraw, ?_, ?_, ?_, ?_, ?_, ?_⟩
  · intro n hn
    have hp := (ParseInt_ok_iff _ n).mpr hn
    have hne : resp.Header.Get "Content-Length" ≠ [] := by
      intro hc
      rw [hc] at hp
      cases hp
    rw [if_pos hne, hp]
  · intro n hlo hhi htext
    have hp := (ParseInt_ok_iff _ n).mpr (decimal_isInt64Text n hlo hhi)
    rw [← htext] at hp
    have hne : resp.Header.Get "Content-Length" ≠ [] := by
      intro hc
      rw [hc] at hp
      cases hp
    rw [if_pos hne, hp]
  · intro hl
    have := Header.Get_of_lookup_none resp.Header "Content-Length" hl
    simp [this]
  · intro he
    simp [he]
  · intro hno
    split
    · cases hp : ParseInt (resp.Header.Get "Content-Length") with
      | ok n => exact absurd ((ParseInt_ok_iff _ n).mp hp) (hno n)
      | error e => rfl
    · rfl
  · intro β lib uuid filePath hreq
    unfold Client.Download
    simp only [hreq, hraw]
    exact ⟨_, rfl, rfl, rfl, rfl⟩

/-- Instance of C8: a 200 response with `Content-Length: 1024`, and the same response
without headers. -/
theorem doRaw_metadata_witness :
    (answering archive).httpClient getRequest = some archive ∧
    (200 ≤ archive.StatusCode ∧ archive.StatusCode ≤ 299) ∧
    archive.Header.Get "Content-Length" = decimal 1024 ∧
    (answering archive).doRaw getRequest
      = Except.ok (archive.Body, GoString.lit "application/zip", 1024, []) ∧
    (answering { archive with Header := [] }).doRaw getRequest
      = Except.ok (archive.Body, [], 0, []) ∧
    ∃ cl : Int,
      (answering archive).doRaw getRequest = Except.ok (archive.Body,
        archive.Header.Get "Content-Type", cl, archive.Header.Get "Content-Disposition") ∧
      (∀ n, isInt64Text (archive.Header.Get "Content-Length") n → cl = n) :=
  ⟨rfl, by decide, by decide, rfl, rfl,
    match doRaw_metadata (answering archive) getRequest archive rfl (by decide) with
    | ⟨cl, h₁, h₂, _⟩ => ⟨cl, h₁, h₂⟩⟩

/-! ## Round trip through the default encoding -/

theorem lit_marshalString (g : GoString) (hg : g.valid = true) :
    GoString.lit (String.mk (g.map (fun u => match u with
      | GoUnit.rune c => c
      | GoUnit.bad _ => Char.ofNat 0xFFFD))) = g := by
  induction g with
  | nil => rfl
  | cons u g ih =>
    cases u with
    | bad b => simp [GoString.valid] at hg
    | rune c =>
      have hg' : GoString.valid g = true := by
        simpa [GoString.valid] using hg
      have := ih hg'
      simp only [GoString.lit, List.map_cons] at this ⊢
      rw [this]

theorem storeString_marshalString (cur : GoString) (field : String) (g : GoString)
    (hg : g.valid = true) : storeString cur field (marshalString g) = (g, none) := by
  simp only [marshalString, storeString]
  rw [lit_marshalString g hg]

theorem store_marshalString (w : wire) (f : WireField) (g : GoString)
    (hf : f.isSlice = false) (hg : g.valid = true) :
    wire.store w f (marshalString g) = (w.setString f g, none) := by
  cases f <;>
    first
    | exact absurd hf (by decide)
    | (simp only [wire.store, storeString_marshalString _ _ g hg])

theorem decodeElems_marshalString (field : String) (l old : List GoString)
    (hl : l.all GoString.valid = true) :
    decodeElems field (l.map marshalString) old = (l, none) := by
  induction l generalizing old with
  | nil => rfl
  | cons g l ih =>
    simp only [List.all_cons, Bool.and_eq_true] at hl
    simp only [List.map_cons, decodeElems, storeString_marshalString _ _ g hl.1, ih _ hl.2]

theorem storeSlice_marshalSlice (field : String) (s : Option (List GoString))
    (hs : (match s with
      | none => true
      | some l => l.all GoString.valid) = true) :
    (storeSlice StringSlice.nil field (marshalSlice s)).2 = none ∧
    (storeSlice StringSlice.nil field (marshalSlice s)).1.toOption = s := by
  cases s with
  | none => exact ⟨rfl, rfl⟩
  | some l =>
    cases l with
    | nil => exact ⟨rfl, rfl⟩
    | cons g l =>
      simp only at hs
      have h := decodeElems_marshalString field (g :: l) ([] ++ []) hs
      simp only [List.map_cons] at h
      simp only [marshalSlice, List.map_cons, storeSlice, StringSlice.nil, h,
        StringSlice.toOption]
      simp

theorem depthElems_marshalString (l : List GoString) :
    depthElems (l.map marshalString) = 0 := by
  induction l with
  | nil => rfl
  | cons g l ih =>
    rw [List.map_cons, depthElems, ih]
    rfl

theorem depth_marshalSlice (s : Option (List GoString)) : (marshalSlice s).depth ≤ 1 := by
  cases s with
  | none => exact Nat.zero_le _
  | some l =>
    simp only [marshalSlice]
    rw [Json.depth, depthElems_marshalString]

theorem pick_pad2 (g : GoString) : pick [g, []] = g := by
  cases g <;> simp [pick]

theorem pick_pad3 (g : GoString) : pick [g, [], []] = g := by
  cases g <;> simp [pick]

theorem pick_pad5 (g : GoString) : pick [g, [], [], [], []] = g := by
  cases g <;> simp [pick]

theorem storeFileTree_eq (w : wire) (v : Json) :
    wire.store w WireField.FileTree v
      = ({ w with FileTree := (storeSlice w.FileTree WireField.FileTree.name v).1 },
          (storeSlice w.FileTree WireField.FileTree.name v).2) := rfl

/-- C10, as amended: for every MachineInfo value whose strings are all valid
UTF-8, `MachineInfo.UnmarshalJSON` applied to the default JSON encoding of the
value succeeds and yields the value itself, a nil file tree and an empty one
told apart. -/
theorem marshal_roundtrip (m : MachineInfo) (hv : m.valid = true) :
    MachineInfo.UnmarshalJSON (some m.Marshal) = Except.ok m := by
  obtain ⟨b, ip, un, cn, os, pr, ram, gc, co, sl, tz, dr, ft, tree⟩ := m
  simp only [MachineInfo.valid, Bool.and_eq_true] at hv
  obtain ⟨⟨⟨⟨⟨⟨⟨⟨⟨⟨⟨⟨⟨h1, h2⟩, h3⟩, h4⟩, h5⟩, h6⟩, h7⟩, h8⟩, h9⟩, h10⟩, h11⟩, h12⟩, h13⟩,
    h14⟩ := hv
  have hdata : ∀ kv ∈ [("buildId", marshalString b), ("ip", marshalString ip),
      ("userName", marshalString un), ("computerName", marshalString cn),
      ("operationSystem", marshalString os), ("processor", marshalString pr),
      ("installedRAM", marshalString ram), ("graphicsCard", marshalString gc),
      ("country", marshalString co), ("systemLanguage", marshalString sl),
      ("timeZone", marshalString tz), ("displayResolution", marshalString dr),
      ("fileType", marshalString ft), ("fileTree", marshalSlice tree)],
      foldName kv.1 ≠ foldName "data" := by
    intro kv hkv
    simp only [List.mem_cons, List.mem_singleton, List.not_mem_nil, or_false] at hkv
    rcases hkv with h | h | h | h | h | h | h | h | h | h | h | h | h | h <;>
      (rw [h]; dsimp only; decide)
  have k1 : findField wireFields WireField.name "buildId" = some WireField.BuildID1 := rfl
  have k2 : findField wireFields WireField.name "ip" = some WireField.IP1 := rfl
  have k3 : findField wireFields WireField.name "userName" = some WireField.UserName1 := rfl
  have k4 : findField wireFields WireField.name "computerName"
      = some WireField.ComputerName1 := rfl
  have k5 : findField wireFields WireField.name "operationSystem"
      = some WireField.OperationSystem1 := rfl
  have k6 : findField wireFields WireField.name "processor" = some WireField.Processor1 := rfl
  have k7 : findField wireFields WireField.name "installedRAM"
      = some WireField.InstalledRAM1 := rfl
  have k8 : findField wireFields WireField.name "graphicsCard"
      = some WireField.GraphicsCard1 := rfl
  have k9 : findField wireFields WireField.name "country" = some WireField.Country1 := rfl
  have k10 : findField wireFields WireField.name "systemLanguage"
      = some WireField.SystemLanguage1 := rfl
  have k11 : findField wireFields WireField.name "timeZone" = some WireField.TimeZone1 := rfl
  have k12 : findField wireFields WireField.name "displayResolution"
      = some WireField.DisplayResolution1 := rfl
  have k13 : findField wireFields WireField.name "fileType" = some WireField.FileType1 := rfl
  have k14 : findField wireFields WireField.name "fileTree" = some WireField.FileTree := rfl
  obtain ⟨t1, t2⟩ := storeSlice_marshalSlice WireField.FileTree.name tree h14
  have hdep : (Json.obj [("buildId", marshalString b), ("ip", marshalString ip),
      ("userName", marshalString un), ("computerName", marshalString cn),
      ("operationSystem", marshalString os), ("processor", marshalString pr),
      ("installedRAM", marshalString ram), ("graphicsCard", marshalString gc),
      ("country", marshalString co), ("systemLanguage", marshalString sl),
      ("timeZone", marshalString tz), ("displayResolution", marshalString dr),
      ("fileType", marshalString ft), ("fileTree", marshalSlice tree)]).depth
      ≤ maxNestingDepth := by
    have hs := depth_marshalSlice tree
    have h0 : ∀ g : GoString, (marshalString g).depth = 0 := fun _ => rfl
    simp only [depth_obj, depthMembers_cons, depthMembers_nil, h0, maxNestingDepth]
    omega
  unfold MachineInfo.UnmarshalJSON MachineInfo.Marshal
  rw [unwrap_no_data _ hdata, decodeWire_obj _ hdep]
  simp only [object, List.foldl_cons, List.foldl_nil, k1, k2, k3, k4, k5, k6, k7, k8, k9, k10,
    k11, k12, k13, k14,
    store_marshalString _ WireField.BuildID1 b rfl h1,
    store_marshalString _ WireField.IP1 ip rfl h2,
    store_marshalString _ WireField.UserName1 un rfl h3,
    store_marshalString _ WireField.ComputerName1 cn rfl h4,
    store_marshalString _ WireField.OperationSystem1 os rfl h5,
    store_marshalString _ WireField.Processor1 pr rfl h6,
    store_marshalString _ WireField.InstalledRAM1 ram rfl h7,
    store_marshalString _ WireField.GraphicsCard1 gc rfl h8,
    store_marshalString _ WireField.Country1 co rfl h9,
    store_marshalString _ WireField.SystemLanguage1 sl rfl h10,
    store_marshalString _ WireField.TimeZone1 tz rfl h11,
    store_marshalString _ WireField.DisplayResolution1 dr rfl h12,
    store_marshalString _ WireField.FileType1 ft rfl h13,
    storeFileTree_eq, saveError_none, wire.setString]
  simp only [StringSlice.nil] at t1 t2
  simp only [StringSlice.nil, t1, saveError_none, fromWire_eq, pick_pad2, pick_pad3, pick_pad5,
    t2]
  simp

/-- Instance of the amended C10: an entity with a build id, a graphics card and a file
tree of one entry. -/
theorem marshal_roundtrip_witness :
    ({ MachineInfo.zero with
        BuildID := GoString.lit "b-17", GraphicsCard := GoString.lit "NVIDIA X",
        FileTree := some [GoString.lit "a.txt"] } : MachineInfo).valid = true ∧
    MachineInfo.UnmarshalJSON (some ({ MachineInfo.zero with
        BuildID := GoString.lit "b-17", GraphicsCard := GoString.lit "NVIDIA X",
        FileTree := some [GoString.lit "a.txt"] } : MachineInfo).Marshal)
      = Except.ok { MachineInfo.zero with
        BuildID := GoString.lit "b-17", GraphicsCard := GoString.lit "NVIDIA X",
        FileTree := some [GoString.lit "a.txt"] } :=
  ⟨rfl, marshal_roundtrip _ rfl⟩

/-- C10, as stated, fails: a MachineInfo whose build id is the single byte
0xFF, which is not valid UTF-8, is encoded with U+FFFD in its place, and
decoding the encoding yields the build id U+FFFD, not the byte 0xFF. -/
theorem marshal_roundtrip_counterexample :
    MachineInfo.UnmarshalJSON
        (some ({ MachineInfo.zero with BuildID := [GoUnit.bad 255] } : MachineInfo).Marshal)
      = Except.ok { MachineInfo.zero with BuildID := [GoUnit.rune (Char.ofNat 0xFFFD)] } ∧
    MachineInfo.UnmarshalJSON
        (some ({ MachineInfo.zero with BuildID := [GoUnit.bad 255] } : MachineInfo).Marshal)
      ≠ Except.ok { MachineInfo.zero with BuildID := [GoUnit.bad 255] } :=
  ⟨rfl, by decide⟩

end Keyscore
